import Mathlib

/-!
Verification of the Alonzo-era CBOR codec (`pallas-alonzo/src/model.rs`).

The generic binary-primitive layer (minicbor) is, per the specification,
an external collaborator: we embed the wire as a stream of CBOR items
(`CItem`), each carrying enough head information (width class of integer
heads, definite vs. indefinite framing) to determine its byte
representation.  The codec under verification is translated item by item
from `model.rs`: decoders are state transformers over the item stream,
encoders produce item lists (`Option`-valued, because encoding the
`SkipCbor` placeholder is an unconditional `todo!()` in the source).
Recursive decoders carry explicit fuel; every claim is settled either
universally over the fuel or at a concrete, sufficient fuel.
-/

/-- Width class of a CBOR integer head: `dir` is the value packed in the
initial byte (values 0..23); `w8`..`w64` are the 1/2/4/8-byte forms.
`dir` and `w8` both report as the 8-bit datatype, as in minicbor. -/
inductive UW where
  | dir
  | w8
  | w16
  | w32
  | w64
deriving DecidableEq, Repr

/-- The number of payload bits the decoder associates with a width class
(used for the head checks of the typed integer reads). -/
def UW.bits : UW → Nat
  | .dir => 8
  | .w8 => 8
  | .w16 => 16
  | .w32 => 32
  | .w64 => 64

/-- One CBOR data item head (with its immediate payload for scalars):
the wire is a list of these.  `nint w n` denotes the negative integer
`-1 - n` (CBOR major type 1).  `arrBegin` / `mpBegin` are indefinite
array/map starts and `brk` is the 0xff break. -/
inductive CItem where
  | uint (w : UW) (v : Nat)
  | nint (w : UW) (n : Nat)
  | bytes (bs : List Nat)
  | text (s : String)
  | arr (n : Nat)
  | arrBegin
  | mp (n : Nat)
  | mpBegin
  | tag (t : Nat)
  | simpleNull
  | brk
deriving DecidableEq, Repr

/-- minicbor's `Type` as reported by `Decoder::datatype`. -/
inductive CType where
  | u8T
  | u16T
  | u32T
  | u64T
  | i8T
  | i16T
  | i32T
  | i64T
  | bytesT
  | textT
  | arrayT
  | arrayIndefT
  | mapT
  | mapIndefT
  | tagT
  | nullT
  | breakT
deriving DecidableEq, Repr

/-- `Decoder::datatype`: the type reported for the next item, from its
head byte only. -/
def CItem.ctype : CItem → CType
  | .uint .dir _ => .u8T
  | .uint .w8 _ => .u8T
  | .uint .w16 _ => .u16T
  | .uint .w32 _ => .u32T
  | .uint .w64 _ => .u64T
  | .nint .dir _ => .i8T
  | .nint .w8 _ => .i8T
  | .nint .w16 _ => .i16T
  | .nint .w32 _ => .i32T
  | .nint .w64 _ => .i64T
  | .bytes _ => .bytesT
  | .text _ => .textT
  | .arr _ => .arrayT
  | .arrBegin => .arrayIndefT
  | .mp _ => .mapT
  | .mpBegin => .mapIndefT
  | .tag _ => .tagT
  | .simpleNull => .nullT
  | .brk => .breakT

/-- Decode errors: `msg` is `minicbor::decode::Error::Message` (the
codec's own errors); the others stand for the primitive layer's
type-mismatch / end-of-input / numeric-overflow errors.  `noFuel` is an
artifact of the fuel discipline of the embedding, never reached at
sufficient fuel. -/
inductive DErr where
  | msg (s : String)
  | typeMismatch
  | endOfInput
  | overflow
  | noFuel
deriving DecidableEq, Repr

/-- The decoder monad: a state transformer over the item stream that can
fail with a decode error (mirrors `minicbor::Decoder` + `?`). -/
abbrev Dec (α : Type) : Type := StateT (List CItem) (Except DErr) α

/-- Run a decoder on a stream, returning the value and remaining items. -/
def runD (d : Dec α) (s : List CItem) : Except DErr (α × List CItem) :=
  StateT.run d s

/-- Consume the next item. -/
def dnext : Dec CItem := fun s =>
  match s with
  | [] => .error .endOfInput
  | i :: r => .ok (i, r)

/-- Peek at the next item without consuming it (minicbor `probe` /
`datatype`). -/
def dpeek : Dec CItem := fun s =>
  match s with
  | [] => .error .endOfInput
  | i :: _ => .ok (i, s)

/-- `Decoder::datatype()`: non-consuming type inspection. -/
def datatype : Dec CType := do
  let i ← dpeek
  pure i.ctype

/-- Typed unsigned read accepting head widths up to `maxBits`
(minicbor's `u8`/`u16`/`u32` check the head byte, not the value). -/
def readUIntW (maxBits : Nat) : Dec Nat := do
  let i ← dnext
  match i with
  | .uint w v => if w.bits ≤ maxBits then pure v else throw .typeMismatch
  | _ => throw .typeMismatch

/-- `Decoder::u8`. -/
def readU8 : Dec Nat := readUIntW 8

/-- `Decoder::u16`. -/
def readU16 : Dec Nat := readUIntW 16

/-- `Decoder::u32`. -/
def readU32 : Dec Nat := readUIntW 32

/-- `Decoder::u64` (accepts every unsigned head width). -/
def readU64 : Dec Nat := readUIntW 64

/-- `Decoder::i64`: accepts both unsigned and negative heads of any
width, with an i64 range check on the value. -/
def readI64 : Dec Int := do
  let i ← dnext
  match i with
  | .uint _ v => if v ≤ 2 ^ 63 - 1 then pure (Int.ofNat v) else throw .overflow
  | .nint _ n => if n ≤ 2 ^ 63 - 1 then pure (-1 - Int.ofNat n) else throw .overflow
  | _ => throw .typeMismatch

/-- `Decoder::i8`: heads of 8-bit class only, with an i8 range check. -/
def readI8 : Dec Int := do
  let i ← dnext
  match i with
  | .uint w v =>
    if w.bits ≤ 8 then
      if v ≤ 127 then pure (Int.ofNat v) else throw .overflow
    else throw .typeMismatch
  | .nint w n =>
    if w.bits ≤ 8 then
      if n ≤ 127 then pure (-1 - Int.ofNat n) else throw .overflow
    else throw .typeMismatch
  | _ => throw .typeMismatch

/-- `Decoder::i16`. -/
def readI16 : Dec Int := do
  let i ← dnext
  match i with
  | .uint w v =>
    if w.bits ≤ 16 then
      if v ≤ 2 ^ 15 - 1 then pure (Int.ofNat v) else throw .overflow
    else throw .typeMismatch
  | .nint w n =>
    if w.bits ≤ 16 then
      if n ≤ 2 ^ 15 - 1 then pure (-1 - Int.ofNat n) else throw .overflow
    else throw .typeMismatch
  | _ => throw .typeMismatch

/-- `Decoder::i32`. -/
def readI32 : Dec Int := do
  let i ← dnext
  match i with
  | .uint w v =>
    if w.bits ≤ 32 then
      if v ≤ 2 ^ 31 - 1 then pure (Int.ofNat v) else throw .overflow
    else throw .typeMismatch
  | .nint w n =>
    if w.bits ≤ 32 then
      if n ≤ 2 ^ 31 - 1 then pure (-1 - Int.ofNat n) else throw .overflow
    else throw .typeMismatch
  | _ => throw .typeMismatch

/-- `Decoder::array`: `some n` for a definite array of `n` elements,
`none` for an indefinite array start. -/
def readArray : Dec (Option Nat) := do
  let i ← dnext
  match i with
  | .arr n => pure (some n)
  | .arrBegin => pure none
  | _ => throw .typeMismatch

/-- `Decoder::map`: `some n` for a definite map of `n` pairs, `none` for
an indefinite map start. -/
def readMap : Dec (Option Nat) := do
  let i ← dnext
  match i with
  | .mp n => pure (some n)
  | .mpBegin => pure none
  | _ => throw .typeMismatch

/-- `Decoder::tag`: consume a semantic tag, returning its numeric value
(minicbor's known tags `PosBignum` = 2, `NegBignum` = 3 are just their
numbers here). -/
def readTag : Dec Nat := do
  let i ← dnext
  match i with
  | .tag t => pure t
  | _ => throw .typeMismatch

/-- Decode of a CBOR byte string (`ByteVec`). -/
def readBytes : Dec (List Nat) := do
  let i ← dnext
  match i with
  | .bytes bs => pure bs
  | _ => throw .typeMismatch

/-- Decode of a CBOR text string (`String`). -/
def readText : Dec String := do
  let i ← dnext
  match i with
  | .text s => pure s
  | _ => throw .typeMismatch

/-- Consume the break item closing an indefinite sequence. -/
def readBreak : Dec Unit := do
  let i ← dnext
  match i with
  | .brk => pure ()
  | _ => throw .typeMismatch

/-- Minimal head width for an unsigned value, as minicbor's encoder
always writes. -/
def minUW (v : Nat) : UW :=
  if v ≤ 23 then .dir
  else if v < 2 ^ 8 then .w8
  else if v < 2 ^ 16 then .w16
  else if v < 2 ^ 32 then .w32
  else .w64

/-- Encode an unsigned integer (minimal head). -/
def encUint (v : Nat) : CItem := .uint (minUW v) v

/-- Encode a signed integer: non-negative as major type 0, negative as
major type 1, minimal head. -/
def encInt (x : Int) : CItem :=
  if 0 ≤ x then encUint x.toNat else .nint (minUW (-(x + 1)).toNat) (-(x + 1)).toNat

/-- Decode exactly `n` elements with `dA`: the definite-array path of
minicbor's `Vec` decode. -/
def decListN (dA : Dec α) : Nat → Dec (List α)
  | 0 => pure []
  | n + 1 => do
    let x ← dA
    let xs ← decListN dA n
    pure (x :: xs)

/-- Decode elements with `dA` until a break item: the indefinite-array
path of minicbor's `Vec` decode (fueled). -/
def decListIndef (dA : Dec α) : Nat → Dec (List α)
  | 0 => throw .noFuel
  | fuel + 1 => do
    match (← dpeek) with
    | .brk => do
      let _ ← dnext
      pure []
    | _ => do
      let x ← dA
      let xs ← decListIndef dA fuel
      pure (x :: xs)

/-- `Vec<A>` decode: a definite or indefinite array of elements. -/
def decVec (dA : Dec α) (fuel : Nat) : Dec (List α) := do
  match (← readArray) with
  | some n => decListN dA n
  | none => decListIndef dA fuel

/-- `Vec<A>` encode: a definite array sized to the length, then the
elements. -/
def encVec (encA : α → Option (List CItem)) (xs : List α) : Option (List CItem) := do
  let parts ← xs.mapM encA
  pure (.arr xs.length :: parts.flatten)

/-- `Option<A>` decode: a null item is `None`, anything else decodes the
payload. -/
def decOption (dA : Dec α) : Dec (Option α) := do
  match (← datatype) with
  | .nullT => do
    let _ ← dnext
    pure none
  | _ => do
    let x ← dA
    pure (some x)

/-- `Option<A>` encode: `None` writes null. -/
def encOption (encA : α → Option (List CItem)) : Option α → Option (List CItem)
  | none => some [.simpleNull]
  | some x => encA x

/-- `BTreeMap::insert` on a comparator-sorted association list: a later
duplicate key replaces the earlier entry. -/
def btInsert (cmp : κ → κ → Ordering) (k : κ) (v : ν) : List (κ × ν) → List (κ × ν)
  | [] => [(k, v)]
  | (k2, v2) :: rest =>
    match cmp k k2 with
    | .lt => (k, v) :: (k2, v2) :: rest
    | .eq => (k, v) :: rest
    | .gt => (k2, v2) :: btInsert cmp k v rest

/-- Definite-map path of `BTreeMap` decode: read `n` pairs, inserting
each. -/
def decBTreeN (cmp : κ → κ → Ordering) (dK : Dec κ) (dV : Dec ν) :
    Nat → List (κ × ν) → Dec (List (κ × ν))
  | 0, acc => pure acc
  | n + 1, acc => do
    let k ← dK
    let v ← dV
    decBTreeN cmp dK dV n (btInsert cmp k v acc)

/-- Indefinite-map path of `BTreeMap` decode (fueled). -/
def decBTreeIndef (cmp : κ → κ → Ordering) (dK : Dec κ) (dV : Dec ν) :
    Nat → List (κ × ν) → Dec (List (κ × ν))
  | 0, _ => throw .noFuel
  | fuel + 1, acc => do
    match (← dpeek) with
    | .brk => do
      let _ ← dnext
      pure acc
    | _ => do
      let k ← dK
      let v ← dV
      decBTreeIndef cmp dK dV fuel (btInsert cmp k v acc)

/-- `BTreeMap<K, V>` decode: pairs of a definite or indefinite map,
accumulated in key-sorted order. -/
def decBTree (cmp : κ → κ → Ordering) (dK : Dec κ) (dV : Dec ν) (fuel : Nat) :
    Dec (List (κ × ν)) := do
  match (← readMap) with
  | some n => decBTreeN cmp dK dV n []
  | none => decBTreeIndef cmp dK dV fuel []

/-- `BTreeMap<K, V>` encode: a definite map sized to the entry count,
entries in stored (sorted) order. -/
def encBTree (encK : κ → Option (List CItem)) (encV : ν → Option (List CItem))
    (m : List (κ × ν)) : Option (List CItem) := do
  let parts ← m.mapM (fun kv => do
    let ki ← encK kv.1
    let vi ← encV kv.2
    pure (ki ++ vi))
  pure (.mp m.length :: parts.flatten)

/-- Modelled from the spec: the ordered key-value container
(`crate::utils::KeyValuePairs`, not under `src/`) preserves insertion
order and duplicate keys so that wire order survives a round trip. -/
def KeyValuePairs (κ ν : Type) : Type := List (κ × ν)

/-- Modelled from the spec: `KeyValuePairs` decode keeps the map's pairs
in wire order (definite-map path). -/
def decKvpN (dK : Dec κ) (dV : Dec ν) : Nat → Dec (List (κ × ν))
  | 0 => pure []
  | n + 1 => do
    let k ← dK
    let v ← dV
    let rest ← decKvpN dK dV n
    pure ((k, v) :: rest)

/-- Modelled from the spec: `KeyValuePairs` decode, indefinite-map path
(fueled). -/
def decKvpIndef (dK : Dec κ) (dV : Dec ν) : Nat → Dec (List (κ × ν))
  | 0 => throw .noFuel
  | fuel + 1 => do
    match (← dpeek) with
    | .brk => do
      let _ ← dnext
      pure []
    | _ => do
      let k ← dK
      let v ← dV
      let rest ← decKvpIndef dK dV fuel
      pure ((k, v) :: rest)

/-- Modelled from the spec: `KeyValuePairs` decode dispatches on the
map framing. -/
def decKvp (dK : Dec κ) (dV : Dec ν) (fuel : Nat) : Dec (List (κ × ν)) := do
  match (← readMap) with
  | some n => decKvpN dK dV n
  | none => decKvpIndef dK dV fuel

/-- Modelled from the spec: `KeyValuePairs` encode emits a definite map
sized to the pair count, pairs in stored order. -/
def encKvp (encK : κ → Option (List CItem)) (encV : ν → Option (List CItem))
    (m : List (κ × ν)) : Option (List CItem) := do
  let parts ← m.mapM (fun kv => do
    let ki ← encK kv.1
    let vi ← encV kv.2
    pure (ki ++ vi))
  pure (.mp m.length :: parts.flatten)

mutual

/-- `Decoder::skip`: consume one complete value of arbitrary shape
(fueled; a break item on its own is not a value). -/
def skipOne : Nat → Dec Unit
  | 0 => throw .noFuel
  | fuel + 1 => do
    let i ← dnext
    match i with
    | .uint _ _ => pure ()
    | .nint _ _ => pure ()
    | .bytes _ => pure ()
    | .text _ => pure ()
    | .simpleNull => pure ()
    | .brk => throw .typeMismatch
    | .tag _ => skipOne fuel
    | .arr n => skipMany fuel n
    | .arrBegin => skipTilBreak fuel
    | .mp n => skipMany fuel (2 * n)
    | .mpBegin => skipTilBreak fuel

/-- Skip `n` consecutive values. -/
def skipMany : Nat → Nat → Dec Unit
  | _, 0 => pure ()
  | 0, _ + 1 => throw .noFuel
  | fuel + 1, n + 1 => do
    skipOne fuel
    skipMany fuel n

/-- Skip values until the closing break of an indefinite sequence. -/
def skipTilBreak : Nat → Dec Unit
  | 0 => throw .noFuel
  | fuel + 1 => do
    match (← dpeek) with
    | .brk => do
      let _ ← dnext
      pure ()
    | _ => do
      skipOne fuel
      skipTilBreak fuel

end

/-- `SkipCbor<N>`: the zero-size forward-compatibility placeholder. -/
structure SkipCbor (N : Nat) where
deriving DecidableEq, Repr

/-- `SkipCbor::decode`: probe the upcoming datatype (diagnostics only;
its error still propagates), then skip the whole value. -/
def skipCborD (N fuel : Nat) : Dec (SkipCbor N) := do
  let _ ← datatype
  skipOne fuel
  pure {}

/-- `SkipCbor::encode` is `todo!()` in the source: an unconditional
fatal stop, modelled as encode failure. -/
def skipCborE {N : Nat} (_ : SkipCbor N) : Option (List CItem) := none

/-- `VrfCert(ByteVec, ByteVec)`: a fixed (proof, output) pair. -/
structure VrfCert where
  proof : List Nat
  output : List Nat
deriving DecidableEq, Repr

/-- Derived array decode of `VrfCert`. -/
def vrfCertD : Dec VrfCert := do
  let _ ← readArray
  let a ← readBytes
  let b ← readBytes
  pure ⟨a, b⟩

/-- Derived array encode of `VrfCert`. -/
def vrfCertE (v : VrfCert) : Option (List CItem) :=
  some [.arr 2, .bytes v.proof, .bytes v.output]

/-- `HeaderBody`: the fixed 15-field header record. -/
structure HeaderBody where
  blockNumber : Nat
  slot : Nat
  prevHash : List Nat
  issuerVkey : List Nat
  vrfVkey : List Nat
  nonceVrf : VrfCert
  leaderVrf : VrfCert
  blockBodySize : Nat
  blockBodyHash : List Nat
  operationalCert : List Nat
  unknown0 : Nat
  unknown1 : Nat
  unknown2 : List Nat
  protocolVersionMajor : Nat
  protocolVersionMinor : Nat
deriving DecidableEq, Repr

/-- Derived array decode of `HeaderBody` (15 positional fields). -/
def headerBodyD : Dec HeaderBody := do
  let _ ← readArray
  let blockNumber ← readU64
  let slot ← readU64
  let prevHash ← readBytes
  let issuerVkey ← readBytes
  let vrfVkey ← readBytes
  let nonceVrf ← vrfCertD
  let leaderVrf ← vrfCertD
  let blockBodySize ← readU64
  let blockBodyHash ← readBytes
  let operationalCert ← readBytes
  let unknown0 ← readU64
  let unknown1 ← readU64
  let unknown2 ← readBytes
  let protocolVersionMajor ← readU64
  let protocolVersionMinor ← readU64
  pure ⟨blockNumber, slot, prevHash, issuerVkey, vrfVkey, nonceVrf, leaderVrf,
    blockBodySize, blockBodyHash, operationalCert, unknown0, unknown1, unknown2,
    protocolVersionMajor, protocolVersionMinor⟩

/-- Derived array encode of `HeaderBody`. -/
def headerBodyE (h : HeaderBody) : Option (List CItem) := do
  let nv ← vrfCertE h.nonceVrf
  let lv ← vrfCertE h.leaderVrf
  pure ([.arr 15, encUint h.blockNumber, encUint h.slot, .bytes h.prevHash,
    .bytes h.issuerVkey, .bytes h.vrfVkey] ++ nv ++ lv ++
    [encUint h.blockBodySize, .bytes h.blockBodyHash, .bytes h.operationalCert,
    encUint h.unknown0, encUint h.unknown1, .bytes h.unknown2,
    encUint h.protocolVersionMajor, encUint h.protocolVersionMinor])

/-- `Header`: header body plus the body signature. -/
structure Header where
  headerBody : HeaderBody
  bodySignature : List Nat
deriving DecidableEq, Repr

/-- Derived array decode of `Header`. -/
def headerD : Dec Header := do
  let _ ← readArray
  let hb ← headerBodyD
  let sig ← readBytes
  pure ⟨hb, sig⟩

/-- Derived array encode of `Header`. -/
def headerE (h : Header) : Option (List CItem) := do
  let hb ← headerBodyE h.headerBody
  pure (.arr 2 :: hb ++ [.bytes h.bodySignature])

/-- `TransactionInput`: transaction id and index. -/
structure TransactionInput where
  transactionId : List Nat
  index : Nat
deriving DecidableEq, Repr

/-- Derived array decode of `TransactionInput`. -/
def transactionInputD : Dec TransactionInput := do
  let _ ← readArray
  let tid ← readBytes
  let idx ← readU64
  pure ⟨tid, idx⟩

/-- Derived array encode of `TransactionInput`. -/
def transactionInputE (t : TransactionInput) : Option (List CItem) :=
  some [.arr 2, .bytes t.transactionId, encUint t.index]

/-- `Value`: a plain coin amount or coin plus multi-asset mapping
(`Multiasset<u64>` is `KeyValuePairs<PolicyId, KeyValuePairs<AssetName,
u64>>`). -/
inductive Value where
  | coin (c : Nat)
  | multiasset (c : Nat) (ma : List (List Nat × List (List Nat × Nat)))
deriving DecidableEq, Repr

/-- `Multiasset<u64>` decode. -/
def multiassetU64D (fuel : Nat) : Dec (List (List Nat × List (List Nat × Nat))) :=
  decKvp readBytes (decKvp readBytes readU64 fuel) fuel

/-- `Multiasset<u64>` encode. -/
def multiassetU64E (ma : List (List Nat × List (List Nat × Nat))) :
    Option (List CItem) :=
  encKvp (fun p => some [.bytes p])
    (encKvp (fun a => some [.bytes a]) (fun q => some [encUint q])) ma

/-- `Multiasset<i64>` (mint) decode. -/
def multiassetI64D (fuel : Nat) : Dec (List (List Nat × List (List Nat × Int))) :=
  decKvp readBytes (decKvp readBytes readI64 fuel) fuel

/-- `Multiasset<i64>` (mint) encode. -/
def multiassetI64E (ma : List (List Nat × List (List Nat × Int))) :
    Option (List CItem) :=
  encKvp (fun p => some [.bytes p])
    (encKvp (fun a => some [.bytes a]) (fun q => some [encInt q])) ma

/-- `Value::decode`: dispatch on the probed datatype — only the 32- and
64-bit unsigned types and the definite-array type are accepted. -/
def valueD (fuel : Nat) : Dec Value := do
  match (← datatype) with
  | .u32T => do
    let c ← readU64
    pure (.coin c)
  | .u64T => do
    let c ← readU64
    pure (.coin c)
  | .arrayT => do
    let _ ← readArray
    let c ← readU64
    let ma ← multiassetU64D fuel
    pure (.multiasset c ma)
  | _ => throw (.msg "unknown cbor data type for Alonzo Value enum")

/-- `Value::encode`: plain integer for `Coin`, 2-element array for
`Multiasset`. -/
def valueE : Value → Option (List CItem)
  | .coin c => some [encUint c]
  | .multiasset c ma => do
    let mai ← multiassetU64E ma
    pure ([.arr 2, encUint c] ++ mai)

/-- `TransactionOutput`: address, amount, optional datum hash. -/
structure TransactionOutput where
  address : List Nat
  amount : Value
  datumHash : Option (List Nat)
deriving DecidableEq, Repr

/-- Derived array decode of `TransactionOutput`. -/
def transactionOutputD (fuel : Nat) : Dec TransactionOutput := do
  let _ ← readArray
  let addr ← readBytes
  let amount ← valueD fuel
  let dh ← decOption readBytes
  pure ⟨addr, amount, dh⟩

/-- Derived array encode of `TransactionOutput`. -/
def transactionOutputE (t : TransactionOutput) : Option (List CItem) := do
  let av ← valueE t.amount
  let dh ← encOption (fun b => some [.bytes b]) t.datumHash
  pure (.arr 3 :: .bytes t.address :: av ++ dh)

/-- `StakeCredential`: key-hash or script-hash. -/
inductive StakeCredential where
  | addrKeyhash (h : List Nat)
  | scripthash (h : List Nat)
deriving DecidableEq, Repr

/-- `StakeCredential::decode`: array framing, u16 discriminant 0 or 1. -/
def stakeCredentialD : Dec StakeCredential := do
  let _ ← readArray
  let variant ← readU16
  if variant = 0 then do
    let a ← readBytes
    pure (.addrKeyhash a)
  else if variant = 1 then do
    let a ← readBytes
    pure (.scripthash a)
  else throw (.msg "invalid variant id for StakeCredential")

/-- `StakeCredential::encode`.  The source writes discriminant `0` in
BOTH arms — the `Scripthash` arm also does `e.encode(0)` — reproduced
faithfully here. -/
def stakeCredentialE : StakeCredential → Option (List CItem)
  | .addrKeyhash a => some [.arr 2, encUint 0, .bytes a]
  | .scripthash a => some [.arr 2, encUint 0, .bytes a]

/-- Lexicographic order on byte vectors (Rust's derived `Ord` for
`Vec<u8>`). -/
def bytesCompare : List Nat → List Nat → Ordering
  | [], [] => .eq
  | [], _ :: _ => .lt
  | _ :: _, [] => .gt
  | a :: as_, b :: bs => match compare a b with
    | .eq => bytesCompare as_ bs
    | o => o

/-- Rust's derived `Ord` for `StakeCredential`: variant order, then the
hash bytes. -/
def stakeCredentialCompare : StakeCredential → StakeCredential → Ordering
  | .addrKeyhash a, .addrKeyhash b => bytesCompare a b
  | .addrKeyhash _, .scripthash _ => .lt
  | .scripthash _, .addrKeyhash _ => .gt
  | .scripthash a, .scripthash b => bytesCompare a b

/-- `InstantaneousRewardSource`: reserves (0) or treasury (1). -/
inductive InstantaneousRewardSource where
  | reserves
  | treasury
deriving DecidableEq, Repr

/-- `InstantaneousRewardSource::decode`: a bare u32, no array framing. -/
def iRewardSourceD : Dec InstantaneousRewardSource := do
  let variant ← readU32
  if variant = 0 then pure .reserves
  else if variant = 1 then pure .treasury
  else throw (.msg "invalid funds variant")

/-- `InstantaneousRewardSource::encode`: a bare u32. -/
def iRewardSourceE : InstantaneousRewardSource → Option (List CItem)
  | .reserves => some [encUint 0]
  | .treasury => some [encUint 1]

/-- `InstantaneousRewardTarget`: a stake-credential map or a plain coin
for the other accounting pot. -/
inductive InstantaneousRewardTarget where
  | stakeCredentials (m : List (StakeCredential × Int))
  | otherAccountingPot (c : Nat)
deriving DecidableEq, Repr

/-- `InstantaneousRewardTarget::decode`: dispatch on the probed type —
the definite-map type decodes the credential map (`BTreeMap`), anything
else decodes a coin. -/
def iRewardTargetD (fuel : Nat) : Dec InstantaneousRewardTarget := do
  match (← datatype) with
  | .mapT => do
    let a ← decBTree stakeCredentialCompare stakeCredentialD readI64 fuel
    pure (.stakeCredentials a)
  | _ => do
    let a ← readU64
    pure (.otherAccountingPot a)

/-- `InstantaneousRewardTarget::encode`. -/
def iRewardTargetE : InstantaneousRewardTarget → Option (List CItem)
  | .stakeCredentials m => encBTree stakeCredentialE (fun x => some [encInt x]) m
  | .otherAccountingPot c => some [encUint c]

/-- `MoveInstantaneousReward`: (source, target) record. -/
structure MoveInstantaneousReward where
  source : InstantaneousRewardSource
  target : InstantaneousRewardTarget
deriving DecidableEq, Repr

/-- Derived array decode of `MoveInstantaneousReward`. -/
def moveInstantaneousRewardD (fuel : Nat) : Dec MoveInstantaneousReward := do
  let _ ← readArray
  let src ← iRewardSourceD
  let tgt ← iRewardTargetD fuel
  pure ⟨src, tgt⟩

/-- Derived array encode of `MoveInstantaneousReward`. -/
def moveInstantaneousRewardE (m : MoveInstantaneousReward) : Option (List CItem) := do
  let s ← iRewardSourceE m.source
  let t ← iRewardTargetE m.target
  pure (.arr 2 :: s ++ t)

/-- `Relay`: host-address, host-name, or multi-host-name. -/
inductive Relay where
  | singleHostAddr (port : Option Nat) (ipv4 : Option (List Nat)) (ipv6 : Option (List Nat))
  | singleHostName (port : Option Nat) (dnsName : String)
  | multiHostName (dnsName : String)
deriving DecidableEq, Repr

/-- `Relay::decode`: array framing, u16 discriminant 0/1/2, then the
variant's fields. -/
def relayD : Dec Relay := do
  let _ ← readArray
  let variant ← readU16
  if variant = 0 then do
    let a ← decOption readU32
    let b ← decOption readBytes
    let c ← decOption readBytes
    pure (.singleHostAddr a b c)
  else if variant = 1 then do
    let a ← decOption readU32
    let b ← readText
    pure (.singleHostName a b)
  else if variant = 2 then do
    let a ← readText
    pure (.multiHostName a)
  else throw (.msg "invalid variant id for Relay")

/-- `Relay::encode`: per-variant array framing (4 / 3 / 2), discriminant,
fields. -/
def relayE : Relay → Option (List CItem)
  | .singleHostAddr a b c => do
    let ai ← encOption (fun p => some [encUint p]) a
    let bi ← encOption (fun x => some [.bytes x]) b
    let ci ← encOption (fun x => some [.bytes x]) c
    pure ([.arr 4, encUint 0] ++ ai ++ bi ++ ci)
  | .singleHostName a b => do
    let ai ← encOption (fun p => some [encUint p]) a
    pure ([.arr 3, encUint 1] ++ ai ++ [.text b])
  | .multiHostName a => some [.arr 2, encUint 2, .text a]

/-- `PoolMetadata`: url and hash. -/
structure PoolMetadata where
  url : String
  hash : List Nat
deriving DecidableEq, Repr

/-- Derived array decode of `PoolMetadata`. -/
def poolMetadataD : Dec PoolMetadata := do
  let _ ← readArray
  let u ← readText
  let h ← readBytes
  pure ⟨u, h⟩

/-- Derived array encode of `PoolMetadata`. -/
def poolMetadataE (p : PoolMetadata) : Option (List CItem) :=
  some [.arr 2, .text p.url, .bytes p.hash]

/-- `RationalNumber`: signed numerator over unsigned denominator. -/
structure RationalNumber where
  numerator : Int
  denominator : Nat
deriving DecidableEq, Repr

/-- `RationalNumber::decode`: consumes the leading semantic tag WITHOUT
checking its value, then the 2-element array. -/
def rationalNumberD : Dec RationalNumber := do
  let _ ← readTag
  let _ ← readArray
  let n ← readI64
  let d ← readU64
  pure ⟨n, d⟩

/-- `RationalNumber::encode`: always re-emits the fixed tag 30. -/
def rationalNumberE (r : RationalNumber) : Option (List CItem) :=
  some [.tag 30, .arr 2, encInt r.numerator, encUint r.denominator]

/-- `Certificate`: the seven Alonzo certificate variants.  The genesis
hashes are `SkipCbor<5>` / `SkipCbor<6>` placeholders as in the source. -/
inductive Certificate where
  | stakeRegistration (c : StakeCredential)
  | stakeDeregistration (c : StakeCredential)
  | stakeDelegation (c : StakeCredential) (pool : List Nat)
  | poolRegistration (operator : List Nat) (vrfKeyhash : List Nat) (pledge : Nat)
      (cost : Nat) (margin : RationalNumber) (rewardAccount : List Nat)
      (poolOwners : List (List Nat)) (relays : List Relay)
      (poolMetadata : Option PoolMetadata)
  | poolRetirement (pool : List Nat) (epoch : Nat)
  | genesisKeyDelegation (g : SkipCbor 5) (gd : SkipCbor 6) (vrf : List Nat)
  | moveInstantaneousRewardsCert (mir : MoveInstantaneousReward)
deriving DecidableEq, Repr

/-- `Certificate::decode`: array framing, u16 discriminant 0..6, then
exactly the variant's fields; any other discriminant is the named
error. -/
def certificateD (fuel : Nat) : Dec Certificate := do
  let _ ← readArray
  let variant ← readU16
  if variant = 0 then do
    let a ← stakeCredentialD
    pure (.stakeRegistration a)
  else if variant = 1 then do
    let a ← stakeCredentialD
    pure (.stakeDeregistration a)
  else if variant = 2 then do
    let a ← stakeCredentialD
    let b ← readBytes
    pure (.stakeDelegation a b)
  else if variant = 3 then do
    let operator ← readBytes
    let vrfKeyhash ← readBytes
    let pledge ← readU64
    let cost ← readU64
    let margin ← rationalNumberD
    let rewardAccount ← readBytes
    let poolOwners ← decVec readBytes fuel
    let relays ← decVec relayD fuel
    let poolMetadata ← decOption poolMetadataD
    pure (.poolRegistration operator vrfKeyhash pledge cost margin rewardAccount
      poolOwners relays poolMetadata)
  else if variant = 4 then do
    let a ← readBytes
    let b ← readU64
    pure (.poolRetirement a b)
  else if variant = 5 then do
    let a ← skipCborD 5 fuel
    let b ← skipCborD 6 fuel
    let c ← readBytes
    pure (.genesisKeyDelegation a b c)
  else if variant = 6 then do
    let a ← moveInstantaneousRewardD fuel
    pure (.moveInstantaneousRewardsCert a)
  else throw (.msg "unknown variant id for certificate")

/-- `Certificate::encode`: per-variant array framing sized to
1 + field count, u16 discriminant, fields in declaration order. -/
def certificateE : Certificate → Option (List CItem)
  | .stakeRegistration a => do
    let ai ← stakeCredentialE a
    pure ([.arr 2, encUint 0] ++ ai)
  | .stakeDeregistration a => do
    let ai ← stakeCredentialE a
    pure ([.arr 2, encUint 1] ++ ai)
  | .stakeDelegation a b => do
    let ai ← stakeCredentialE a
    pure ([.arr 3, encUint 2] ++ ai ++ [.bytes b])
  | .poolRegistration operator vrfKeyhash pledge cost margin rewardAccount
      poolOwners relays poolMetadata => do
    let mi ← rationalNumberE margin
    let oi ← encVec (fun x => some [.bytes x]) poolOwners
    let ri ← encVec relayE relays
    let pmi ← encOption poolMetadataE poolMetadata
    pure ([.arr 10, encUint 3, .bytes operator, .bytes vrfKeyhash,
      encUint pledge, encUint cost] ++ mi ++ [.bytes rewardAccount] ++
      oi ++ ri ++ pmi)
  | .poolRetirement a b => some [.arr 3, encUint 4, .bytes a, encUint b]
  | .genesisKeyDelegation a b c => do
    let ai ← skipCborE a
    let bi ← skipCborE b
    pure ([.arr 4, encUint 5] ++ ai ++ bi ++ [.bytes c])
  | .moveInstantaneousRewardsCert a => do
    let ai ← moveInstantaneousRewardE a
    pure ([.arr 3, encUint 6] ++ ai)

/-- The discriminant `Certificate::decode` associates with each variant. -/
def certificateTag : Certificate → Nat
  | .stakeRegistration _ => 0
  | .stakeDeregistration _ => 1
  | .stakeDelegation _ _ => 2
  | .poolRegistration _ _ _ _ _ _ _ _ _ => 3
  | .poolRetirement _ _ => 4
  | .genesisKeyDelegation _ _ _ => 5
  | .moveInstantaneousRewardsCert _ => 6

/-- The discriminant `Relay::decode` associates with each variant. -/
def relayTag : Relay → Nat
  | .singleHostAddr _ _ _ => 0
  | .singleHostName _ _ => 1
  | .multiHostName _ => 2

/-- `NetworkId`: an index-only enum (no array framing on the wire). -/
inductive NetworkId where
  | one
  | two
deriving DecidableEq, Repr

/-- Derived index-only decode of `NetworkId`. -/
def networkIdD : Dec NetworkId := do
  let v ← readU32
  if v = 0 then pure .one
  else if v = 1 then pure .two
  else throw (.msg "unknown enum variant")

/-- Derived index-only encode of `NetworkId`: a bare small integer. -/
def networkIdE : NetworkId → Option (List CItem)
  | .one => some [encUint 0]
  | .two => some [encUint 1]

/-- `NativeScript`: the recursive native-script tree. -/
inductive NativeScript where
  | scriptPubkey (h : List Nat)
  | scriptAll (xs : List NativeScript)
  | scriptAny (xs : List NativeScript)
  | scriptNOfK (n : Nat) (xs : List NativeScript)
  | invalidBefore (t : Nat)
  | invalidHereafter (t : Nat)
deriving Repr

mutual

/-- `NativeScript::decode`: array framing, u32 discriminant 0..5, then
the variant's fields (fueled for the recursive script lists). -/
def nativeScriptD : Nat → Dec NativeScript
  | 0 => throw .noFuel
  | fuel + 1 => do
    let _ ← readArray
    let variant ← readU32
    if variant = 0 then do
      let v ← readBytes
      pure (.scriptPubkey v)
    else if variant = 1 then do
      let v ← nativeScriptVecD fuel
      pure (.scriptAll v)
    else if variant = 2 then do
      let v ← nativeScriptVecD fuel
      pure (.scriptAny v)
    else if variant = 3 then do
      let a ← readU32
      let b ← nativeScriptVecD fuel
      pure (.scriptNOfK a b)
    else if variant = 4 then do
      let v ← readU64
      pure (.invalidBefore v)
    else if variant = 5 then do
      let v ← readU64
      pure (.invalidHereafter v)
    else throw (.msg "unknown variant id for native script")

/-- `Vec<NativeScript>` decode: definite or indefinite array. -/
def nativeScriptVecD : Nat → Dec (List NativeScript)
  | 0 => throw .noFuel
  | fuel + 1 => do
    match (← readArray) with
    | some n => nativeScriptListN fuel n
    | none => nativeScriptListIndef fuel

/-- Definite-array path of `Vec<NativeScript>` decode. -/
def nativeScriptListN : Nat → Nat → Dec (List NativeScript)
  | _, 0 => pure []
  | 0, _ + 1 => throw .noFuel
  | fuel + 1, n + 1 => do
    let x ← nativeScriptD fuel
    let xs ← nativeScriptListN fuel n
    pure (x :: xs)

/-- Indefinite-array path of `Vec<NativeScript>` decode. -/
def nativeScriptListIndef : Nat → Dec (List NativeScript)
  | 0 => throw .noFuel
  | fuel + 1 => do
    match (← dpeek) with
    | .brk => do
      let _ ← dnext
      pure []
    | _ => do
      let x ← nativeScriptD fuel
      let xs ← nativeScriptListIndef fuel
      pure (x :: xs)

end

mutual

/-- `NativeScript::encode`.  The source hoists `e.array(2)` BEFORE the
match, so EVERY variant gets a 2-element array framing — including the
two-field `ScriptNOfK` — reproduced faithfully here. -/
def nativeScriptE : NativeScript → Option (List CItem)
  | .scriptPubkey v => some [.arr 2, encUint 0, .bytes v]
  | .scriptAll v => do
    let vi ← nativeScriptListE v
    pure ([.arr 2, encUint 1, .arr v.length] ++ vi)
  | .scriptAny v => do
    let vi ← nativeScriptListE v
    pure ([.arr 2, encUint 2, .arr v.length] ++ vi)
  | .scriptNOfK a b => do
    let bi ← nativeScriptListE b
    pure ([.arr 2, encUint 3, encUint a, .arr b.length] ++ bi)
  | .invalidBefore v => some [.arr 2, encUint 4, encUint v]
  | .invalidHereafter v => some [.arr 2, encUint 5, encUint v]

/-- Element encode of a `Vec<NativeScript>` (the elements only; the
caller writes the array head). -/
def nativeScriptListE : List NativeScript → Option (List CItem)
  | [] => some []
  | x :: xs => do
    let xi ← nativeScriptE x
    let rest ← nativeScriptListE xs
    pure (xi ++ rest)

end

/-- `BigInt`: native signed 64-bit, or tagged positive/negative
magnitude byte strings. -/
inductive BigInt where
  | int (x : Int)
  | bigUInt (bs : List Nat)
  | bigNInt (bs : List Nat)
deriving DecidableEq, Repr

/-- `BigInt::decode`: any native integer datatype decodes as the native
variant; tags 2 (`PosBignum`) and 3 (`NegBignum`) select the magnitude
variants; any other tag or datatype is the named error. -/
def bigIntD : Dec BigInt := do
  match (← datatype) with
  | .u8T | .u16T | .u32T | .u64T | .i8T | .i16T | .i32T | .i64T => do
    let x ← readI64
    pure (.int x)
  | .tagT => do
    let t ← readTag
    if t = 2 then do
      let b ← readBytes
      pure (.bigUInt b)
    else if t = 3 then do
      let b ← readBytes
      pure (.bigNInt b)
    else throw (.msg "invalid cbor tag for big int")
  | _ => throw (.msg "invalid cbor data type for big int")

/-- `BigInt::encode`. -/
def bigIntE : BigInt → Option (List CItem)
  | .int x => some [encInt x]
  | .bigUInt b => some [.tag 2, .bytes b]
  | .bigNInt b => some [.tag 3, .bytes b]

/-- Rust's derived `Ord` for `BigInt`: variant order `Int < BigUInt <
BigNInt`, then the payload. -/
def bigIntCompare : BigInt → BigInt → Ordering
  | .int a, .int b => compare a b
  | .int _, .bigUInt _ => .lt
  | .int _, .bigNInt _ => .lt
  | .bigUInt _, .int _ => .gt
  | .bigUInt a, .bigUInt b => bytesCompare a b
  | .bigUInt _, .bigNInt _ => .lt
  | .bigNInt _, .int _ => .gt
  | .bigNInt _, .bigUInt _ => .gt
  | .bigNInt a, .bigNInt b => bytesCompare a b

/-- Rust's derived `Ord` for `Option<u32>`: `None < Some`. -/
def optNatCompare : Option Nat → Option Nat → Ordering
  | none, none => .eq
  | none, some _ => .lt
  | some _, none => .gt
  | some a, some b => compare a b

/-- `PlutusData`: the recursive script-data tree.  `constr` carries the
fields of `Constr<PlutusData>` (tag, optional compatibility `prefix`,
payload); the `IndefVec` wrappers of `Constr::values` and `ArrayIndef`
are flattened to plain lists here — the `IndefVec` codec itself is
modelled separately below. -/
inductive PlutusData where
  | constr (tag : Nat) (pfx : Option Nat) (values : List PlutusData)
  | map (kvs : List (PlutusData × PlutusData))
  | bigInt (b : BigInt)
  | boundedBytes (bs : List Nat)
  | array (vs : List PlutusData)
  | arrayIndef (vs : List PlutusData)
deriving Repr

/-- Variant rank of `PlutusData` in declaration order, for the derived
`Ord`. -/
def plutusDataRank : PlutusData → Nat
  | .constr _ _ _ => 0
  | .map _ => 1
  | .bigInt _ => 2
  | .boundedBytes _ => 3
  | .array _ => 4
  | .arrayIndef _ => 5

mutual

/-- Rust's derived `Ord` for `PlutusData`: variant declaration order,
then fields lexicographically. -/
def plutusDataCompare : PlutusData → PlutusData → Ordering
  | .constr t1 p1 v1, .constr t2 p2 v2 =>
    match compare t1 t2 with
    | .eq =>
      match optNatCompare p1 p2 with
      | .eq => plutusDataListCompare v1 v2
      | o => o
    | o => o
  | .map a, .map b => plutusDataPairsCompare a b
  | .bigInt a, .bigInt b => bigIntCompare a b
  | .boundedBytes a, .boundedBytes b => bytesCompare a b
  | .array a, .array b => plutusDataListCompare a b
  | .arrayIndef a, .arrayIndef b => plutusDataListCompare a b
  | a, b => compare (plutusDataRank a) (plutusDataRank b)

/-- Lexicographic order on `Vec<PlutusData>`. -/
def plutusDataListCompare : List PlutusData → List PlutusData → Ordering
  | [], [] => .eq
  | [], _ :: _ => .lt
  | _ :: _, [] => .gt
  | a :: as_, b :: bs =>
    match plutusDataCompare a b with
    | .eq => plutusDataListCompare as_ bs
    | o => o

/-- Lexicographic order on the sorted pair sequence of
`BTreeMap<PlutusData, PlutusData>`. -/
def plutusDataPairsCompare :
    List (PlutusData × PlutusData) → List (PlutusData × PlutusData) → Ordering
  | [], [] => .eq
  | [], _ :: _ => .lt
  | _ :: _, [] => .gt
  | (k1, v1) :: as_, (k2, v2) :: bs =>
    match plutusDataCompare k1 k2 with
    | .eq =>
      match plutusDataCompare v1 v2 with
      | .eq => plutusDataPairsCompare as_ bs
      | o => o
    | o => o

end

/-- Non-consuming tag probe (`d.probe().tag()`). -/
def peekTag : Dec Nat := do
  match (← dpeek) with
  | .tag t => pure t
  | _ => throw .typeMismatch

mutual

/-- `PlutusData::decode`: dispatch on the probed primitive type; tags in
the constructor ranges or 102 decode as `Constr`, bignum tags as
`BigInt`, native integer types as `BigInt`, map / bytes / definite
array / indefinite array as their variants. -/
def plutusDataD : Nat → Dec PlutusData
  | 0 => throw .noFuel
  | fuel + 1 => do
    match (← datatype) with
    | .tagT => do
      let t ← peekTag
      if (121 ≤ t ∧ t ≤ 127) ∨ (1280 ≤ t ∧ t ≤ 1400) ∨ t = 102 then
        constrPlutusD fuel
      else if t = 2 ∨ t = 3 then do
        let b ← bigIntD
        pure (.bigInt b)
      else throw (.msg "unknown tag for plutus data tag")
    | .u8T | .u16T | .u32T | .u64T | .i8T | .i16T | .i32T | .i64T => do
      let b ← bigIntD
      pure (.bigInt b)
    | .mapT => do
      let kvs ← plutusDataMapD fuel
      pure (.map kvs)
    | .bytesT => do
      let bs ← readBytes
      pure (.boundedBytes bs)
    | .arrayT => do
      let vs ← plutusDataVecD fuel
      pure (.array vs)
    | .arrayIndefT => do
      let vs ← plutusDataVecD fuel
      pure (.arrayIndef vs)
    | _ => throw (.msg "bad cbor data type for plutus data")

/-- `Constr::<PlutusData>::decode`: compact tags 121..127 / 1280..1400
carry the constructor index in the tag and a payload sequence; tag 102
is the general form with a 2-element array of (explicit index, payload);
any other tag is the named error. -/
def constrPlutusD : Nat → Dec PlutusData
  | 0 => throw .noFuel
  | fuel + 1 => do
    let t ← readTag
    if (121 ≤ t ∧ t ≤ 127) ∨ (1280 ≤ t ∧ t ≤ 1400) then do
      let values ← plutusDataVecD fuel
      pure (.constr t none values)
    else if t = 102 then do
      let _ ← readArray
      let pfx ← readU32
      let values ← plutusDataVecD fuel
      pure (.constr 102 (some pfx) values)
    else throw (.msg "bad tag code for plutus data")

/-- `IndefVec<PlutusData>` / `Vec<PlutusData>` decode: a definite or
indefinite array of elements. -/
def plutusDataVecD : Nat → Dec (List PlutusData)
  | 0 => throw .noFuel
  | fuel + 1 => do
    match (← readArray) with
    | some n => plutusDataListN fuel n
    | none => plutusDataListIndef fuel

/-- Definite-array path of `Vec<PlutusData>` decode. -/
def plutusDataListN : Nat → Nat → Dec (List PlutusData)
  | _, 0 => pure []
  | 0, _ + 1 => throw .noFuel
  | fuel + 1, n + 1 => do
    let x ← plutusDataD fuel
    let xs ← plutusDataListN fuel n
    pure (x :: xs)

/-- Indefinite-array path of `Vec<PlutusData>` decode. -/
def plutusDataListIndef : Nat → Dec (List PlutusData)
  | 0 => throw .noFuel
  | fuel + 1 => do
    match (← dpeek) with
    | .brk => do
      let _ ← dnext
      pure []
    | _ => do
      let x ← plutusDataD fuel
      let xs ← plutusDataListIndef fuel
      pure (x :: xs)

/-- `BTreeMap<PlutusData, PlutusData>` decode: map pairs inserted in
derived-`Ord` order. -/
def plutusDataMapD : Nat → Dec (List (PlutusData × PlutusData))
  | 0 => throw .noFuel
  | fuel + 1 => do
    match (← readMap) with
    | some n => plutusDataMapN fuel n []
    | none => plutusDataMapIndef fuel []

/-- Definite-map path of `BTreeMap<PlutusData, PlutusData>` decode. -/
def plutusDataMapN : Nat → Nat → List (PlutusData × PlutusData) →
    Dec (List (PlutusData × PlutusData))
  | _, 0, acc => pure acc
  | 0, _ + 1, _ => throw .noFuel
  | fuel + 1, n + 1, acc => do
    let k ← plutusDataD fuel
    let v ← plutusDataD fuel
    plutusDataMapN fuel n (btInsert plutusDataCompare k v acc)

/-- Indefinite-map path of `BTreeMap<PlutusData, PlutusData>` decode. -/
def plutusDataMapIndef : Nat → List (PlutusData × PlutusData) →
    Dec (List (PlutusData × PlutusData))
  | 0, _ => throw .noFuel
  | fuel + 1, acc => do
    match (← dpeek) with
    | .brk => do
      let _ ← dnext
      pure acc
    | _ => do
      let k ← plutusDataD fuel
      let v ← plutusDataD fuel
      plutusDataMapIndef fuel (btInsert plutusDataCompare k v acc)

end

mutual

/-- `PlutusData::encode`: each variant delegates to its payload's
encoder. -/
def plutusDataE : PlutusData → Option (List CItem)
  | .constr t p vs => constrPlutusE t p vs
  | .map kvs => do
    let ps ← plutusDataPairsE kvs
    pure (.mp kvs.length :: ps)
  | .bigInt b => bigIntE b
  | .boundedBytes bs => some [.bytes bs]
  | .array vs => do
    let vi ← plutusDataListE vs
    pure (.arr vs.length :: vi)
  | .arrayIndef vs => plutusDataIndefVecE vs

/-- `Constr::<PlutusData>::encode`: write the stored tag; tag 102 then
writes the 2-element (prefix, payload) array, all other tags write the
payload sequence directly (via the `IndefVec` encode). -/
def constrPlutusE (t : Nat) (p : Option Nat) (vs : List PlutusData) :
    Option (List CItem) :=
  if t = 102 then do
    let pi_ ← encOption (fun x => some [encUint x]) p
    let vi ← plutusDataIndefVecE vs
    pure (.tag t :: .arr 2 :: pi_ ++ vi)
  else do
    let vi ← plutusDataIndefVecE vs
    pure (.tag t :: vi)

/-- `IndefVec::<PlutusData>::encode`: an EMPTY payload writes the
indefinite begin/end framing, a NON-EMPTY payload writes a zero-length
definite array (and drops the elements) — the §9 asymmetry, reproduced
faithfully. -/
def plutusDataIndefVecE (vs : List PlutusData) : Option (List CItem) :=
  if vs.isEmpty then do
    let vi ← plutusDataListE vs
    pure (.arrBegin :: vi ++ [.brk])
  else some [.arr 0]

/-- Element encode of a `Vec<PlutusData>` (elements only). -/
def plutusDataListE : List PlutusData → Option (List CItem)
  | [] => some []
  | x :: xs => do
    let xi ← plutusDataE x
    let rest ← plutusDataListE xs
    pure (xi ++ rest)

/-- Pair encode of a `BTreeMap<PlutusData, PlutusData>` (pairs only). -/
def plutusDataPairsE : List (PlutusData × PlutusData) → Option (List CItem)
  | [] => some []
  | (k, v) :: rest => do
    let ki ← plutusDataE k
    let vi ← plutusDataE v
    let ri ← plutusDataPairsE rest
    pure (ki ++ vi ++ ri)

end

/-- `IndefVec<A>`: the wrapper that forces indefinite-array handling. -/
structure IndefVec (α : Type) where
  vals : List α
deriving Repr

/-- `IndefVec::decode`: delegates to the `Vec` decode (whichever framing
is present). -/
def indefVecD (dA : Dec α) (fuel : Nat) : Dec (IndefVec α) := do
  let values ← decVec dA fuel
  pure ⟨values⟩

/-- `IndefVec::encode`: if the sequence is EMPTY, write indefinite
begin/end framing (and the elements, of which there are none); if
NON-EMPTY, write a zero-length definite array — the asymmetry of §9. -/
def indefVecE (encA : α → Option (List CItem)) (x : IndefVec α) :
    Option (List CItem) :=
  if x.vals.isEmpty then do
    let parts ← x.vals.mapM encA
    pure (.arrBegin :: parts.flatten ++ [.brk])
  else some [.arr 0]

/-- The two's-complement `u64 as i64` cast (for values below `2^64`). -/
def u64AsI64 (v : Nat) : Int :=
  if v < 2 ^ 63 then (v : Int) else (v : Int) - 2 ^ 64

/-- `Metadatum`: the recursive metadata tree (`Metadata` is the ordered
`KeyValuePairs<Metadatum, Metadatum>`). -/
inductive Metadatum where
  | int (x : Int)
  | bytes (bs : List Nat)
  | text (s : String)
  | array (xs : List Metadatum)
  | map (kvs : List (Metadatum × Metadatum))
deriving Repr

mutual

/-- `Metadatum::decode`: dispatch on the probed datatype with a typed
read per integer width; every native integer is converted to the
signed 64-bit variant with an `as i64` cast (wrapping for `u64`). -/
def metadatumD : Nat → Dec Metadatum
  | 0 => throw .noFuel
  | fuel + 1 => do
    match (← datatype) with
    | .u8T => do
      let i ← readU8
      pure (.int (Int.ofNat i))
    | .u16T => do
      let i ← readU16
      pure (.int (Int.ofNat i))
    | .u32T => do
      let i ← readU32
      pure (.int (Int.ofNat i))
    | .u64T => do
      let i ← readU64
      pure (.int (u64AsI64 i))
    | .i8T => do
      let i ← readI8
      pure (.int i)
    | .i16T => do
      let i ← readI16
      pure (.int i)
    | .i32T => do
      let i ← readI32
      pure (.int i)
    | .i64T => do
      let i ← readI64
      pure (.int i)
    | .bytesT => do
      let bs ← readBytes
      pure (.bytes bs)
    | .textT => do
      let s ← readText
      pure (.text s)
    | .arrayT => do
      let xs ← metadatumVecD fuel
      pure (.array xs)
    | .mapT => do
      let kvs ← metadataD fuel
      pure (.map kvs)
    | _ => throw (.msg "Can't turn data type into metadatum")

/-- `Vec<Metadatum>` decode. -/
def metadatumVecD : Nat → Dec (List Metadatum)
  | 0 => throw .noFuel
  | fuel + 1 => do
    match (← readArray) with
    | some n => metadatumListN fuel n
    | none => metadatumListIndef fuel

/-- Definite-array path of `Vec<Metadatum>` decode. -/
def metadatumListN : Nat → Nat → Dec (List Metadatum)
  | _, 0 => pure []
  | 0, _ + 1 => throw .noFuel
  | fuel + 1, n + 1 => do
    let x ← metadatumD fuel
    let xs ← metadatumListN fuel n
    pure (x :: xs)

/-- Indefinite-array path of `Vec<Metadatum>` decode. -/
def metadatumListIndef : Nat → Dec (List Metadatum)
  | 0 => throw .noFuel
  | fuel + 1 => do
    match (← dpeek) with
    | .brk => do
      let _ ← dnext
      pure []
    | _ => do
      let x ← metadatumD fuel
      let xs ← metadatumListIndef fuel
      pure (x :: xs)

/-- `Metadata` (`KeyValuePairs<Metadatum, Metadatum>`) decode: pairs in
wire order. -/
def metadataD : Nat → Dec (List (Metadatum × Metadatum))
  | 0 => throw .noFuel
  | fuel + 1 => do
    match (← readMap) with
    | some n => metadataPairsN fuel n
    | none => metadataPairsIndef fuel

/-- Definite-map path of `Metadata` decode. -/
def metadataPairsN : Nat → Nat → Dec (List (Metadatum × Metadatum))
  | _, 0 => pure []
  | 0, _ + 1 => throw .noFuel
  | fuel + 1, n + 1 => do
    let k ← metadatumD fuel
    let v ← metadatumD fuel
    let rest ← metadataPairsN fuel n
    pure ((k, v) :: rest)

/-- Indefinite-map path of `Metadata` decode. -/
def metadataPairsIndef : Nat → Dec (List (Metadatum × Metadatum))
  | 0 => throw .noFuel
  | fuel + 1 => do
    match (← dpeek) with
    | .brk => do
      let _ ← dnext
      pure []
    | _ => do
      let k ← metadatumD fuel
      let v ← metadatumD fuel
      let rest ← metadataPairsIndef fuel
      pure ((k, v) :: rest)

end

mutual

/-- `Metadatum::encode`. -/
def metadatumE : Metadatum → Option (List CItem)
  | .int x => some [encInt x]
  | .bytes bs => some [.bytes bs]
  | .text s => some [.text s]
  | .array xs => do
    let xi ← metadatumListE xs
    pure (.arr xs.length :: xi)
  | .map kvs => do
    let ki ← metadataPairsE kvs
    pure (.mp kvs.length :: ki)

/-- Element encode of `Vec<Metadatum>`. -/
def metadatumListE : List Metadatum → Option (List CItem)
  | [] => some []
  | x :: xs => do
    let xi ← metadatumE x
    let rest ← metadatumListE xs
    pure (xi ++ rest)

/-- Pair encode of `Metadata` (ordered pairs). -/
def metadataPairsE : List (Metadatum × Metadatum) → Option (List CItem)
  | [] => some []
  | (k, v) :: rest => do
    let ki ← metadatumE k
    let vi ← metadatumE v
    let ri ← metadataPairsE rest
    pure (ki ++ vi ++ ri)

end

/-- `Metadata` encode: definite map sized to the pair count. -/
def metadataE (m : List (Metadatum × Metadatum)) : Option (List CItem) := do
  let ps ← metadataPairsE m
  pure (.mp m.length :: ps)

/-- `VKeyWitness`: vkey and signature. -/
structure VKeyWitness where
  vkey : List Nat
  signature : List Nat
deriving DecidableEq, Repr

/-- Derived array decode of `VKeyWitness`. -/
def vKeyWitnessD : Dec VKeyWitness := do
  let _ ← readArray
  let v ← readBytes
  let s ← readBytes
  pure ⟨v, s⟩

/-- Derived array encode of `VKeyWitness`. -/
def vKeyWitnessE (w : VKeyWitness) : Option (List CItem) :=
  some [.arr 2, .bytes w.vkey, .bytes w.signature]

/-- `BootstrapWitness`: public key, signature, chain code, attributes. -/
structure BootstrapWitness where
  publicKey : List Nat
  signature : List Nat
  chainCode : List Nat
  attributes : List Nat
deriving DecidableEq, Repr

/-- Derived array decode of `BootstrapWitness`. -/
def bootstrapWitnessD : Dec BootstrapWitness := do
  let _ ← readArray
  let pk ← readBytes
  let sg ← readBytes
  let cc ← readBytes
  let at_ ← readBytes
  pure ⟨pk, sg, cc, at_⟩

/-- Derived array encode of `BootstrapWitness`. -/
def bootstrapWitnessE (w : BootstrapWitness) : Option (List CItem) :=
  some [.arr 4, .bytes w.publicKey, .bytes w.signature, .bytes w.chainCode,
    .bytes w.attributes]

/-- `ExUnits`: memory and step budgets. -/
structure ExUnits where
  mem : Nat
  steps : Nat
deriving DecidableEq, Repr

/-- Derived array decode of `ExUnits`. -/
def exUnitsD : Dec ExUnits := do
  let _ ← readArray
  let m ← readU32
  let s ← readU32
  pure ⟨m, s⟩

/-- Derived array encode of `ExUnits`. -/
def exUnitsE (x : ExUnits) : Option (List CItem) :=
  some [.arr 2, encUint x.mem, encUint x.steps]

/-- `RedeemerTag`: an index-only enum. -/
inductive RedeemerTag where
  | spend
  | mint
  | cert
  | reward
deriving DecidableEq, Repr

/-- Derived index-only decode of `RedeemerTag`. -/
def redeemerTagD : Dec RedeemerTag := do
  let v ← readU32
  if v = 0 then pure .spend
  else if v = 1 then pure .mint
  else if v = 2 then pure .cert
  else if v = 3 then pure .reward
  else throw (.msg "unknown enum variant")

/-- Derived index-only encode of `RedeemerTag`: a bare small integer. -/
def redeemerTagE : RedeemerTag → Option (List CItem)
  | .spend => some [encUint 0]
  | .mint => some [encUint 1]
  | .cert => some [encUint 2]
  | .reward => some [encUint 3]

/-- `Redeemer`: tag, index, script data, budgets. -/
structure Redeemer where
  tag : RedeemerTag
  index : Nat
  data : PlutusData
  exUnits : ExUnits
deriving Repr

/-- Derived array decode of `Redeemer`. -/
def redeemerD (fuel : Nat) : Dec Redeemer := do
  let _ ← readArray
  let t ← redeemerTagD
  let i ← readU32
  let d ← plutusDataD fuel
  let x ← exUnitsD
  pure ⟨t, i, d, x⟩

/-- Derived array encode of `Redeemer`. -/
def redeemerE (r : Redeemer) : Option (List CItem) := do
  let ti ← redeemerTagE r.tag
  let di ← plutusDataE r.data
  let xi ← exUnitsE r.exUnits
  pure (.arr 4 :: ti ++ [encUint r.index] ++ di ++ xi)

/-- `TransactionWitnessSet`: a field-keyed optional-field map record. -/
structure TransactionWitnessSet where
  vkeywitness : Option (List VKeyWitness)
  nativeScript : Option (List NativeScript)
  bootstrapWitness : Option (List BootstrapWitness)
  plutusScript : Option (List (List Nat))
  plutusData : Option (List PlutusData)
  redeemer : Option (List Redeemer)
deriving Repr

/-- The empty (all-absent) witness set the map-derived decode starts
from. -/
def emptyTransactionWitnessSet : TransactionWitnessSet :=
  ⟨none, none, none, none, none, none⟩

/-- One entry of the map-derived `TransactionWitnessSet` decode: read
the u32 key, fill the matching field, skip an unknown key's value. -/
def transactionWitnessSetEntry (fuel : Nat) (acc : TransactionWitnessSet) :
    Dec TransactionWitnessSet := do
  let k ← readU32
  if k = 0 then do
    let v ← decVec vKeyWitnessD fuel
    pure { acc with vkeywitness := some v }
  else if k = 1 then do
    let v ← decVec (nativeScriptD fuel) fuel
    pure { acc with nativeScript := some v }
  else if k = 2 then do
    let v ← decVec bootstrapWitnessD fuel
    pure { acc with bootstrapWitness := some v }
  else if k = 3 then do
    let v ← decVec readBytes fuel
    pure { acc with plutusScript := some v }
  else if k = 4 then do
    let v ← decVec (plutusDataD fuel) fuel
    pure { acc with plutusData := some v }
  else if k = 5 then do
    let v ← decVec (redeemerD fuel) fuel
    pure { acc with redeemer := some v }
  else do
    skipOne fuel
    pure acc

/-- Definite-map path of the `TransactionWitnessSet` decode. -/
def transactionWitnessSetEntriesN (fuel : Nat) :
    Nat → TransactionWitnessSet → Dec TransactionWitnessSet
  | 0, acc => pure acc
  | n + 1, acc => do
    let acc2 ← transactionWitnessSetEntry fuel acc
    transactionWitnessSetEntriesN fuel n acc2

/-- Indefinite-map path of the `TransactionWitnessSet` decode. -/
def transactionWitnessSetEntriesIndef :
    Nat → TransactionWitnessSet → Dec TransactionWitnessSet
  | 0, _ => throw .noFuel
  | fuel + 1, acc => do
    match (← dpeek) with
    | .brk => do
      let _ ← dnext
      pure acc
    | _ => do
      let acc2 ← transactionWitnessSetEntry fuel acc
      transactionWitnessSetEntriesIndef fuel acc2

/-- Map-derived decode of `TransactionWitnessSet`. -/
def transactionWitnessSetD (fuel : Nat) : Dec TransactionWitnessSet := do
  match (← readMap) with
  | some n => transactionWitnessSetEntriesN fuel n emptyTransactionWitnessSet
  | none => transactionWitnessSetEntriesIndef fuel emptyTransactionWitnessSet

/-- Map-derived encode of `TransactionWitnessSet`: a map sized to the
number of present fields, each present field as key then value, in
declaration order. -/
def transactionWitnessSetE (w : TransactionWitnessSet) : Option (List CItem) := do
  let f0 ← match w.vkeywitness with
    | none => pure []
    | some v => do
      let vi ← encVec vKeyWitnessE v
      pure (encUint 0 :: vi)
  let f1 ← match w.nativeScript with
    | none => pure []
    | some v => do
      let vi ← encVec nativeScriptE v
      pure (encUint 1 :: vi)
  let f2 ← match w.bootstrapWitness with
    | none => pure []
    | some v => do
      let vi ← encVec bootstrapWitnessE v
      pure (encUint 2 :: vi)
  let f3 ← match w.plutusScript with
    | none => pure []
    | some v => do
      let vi ← encVec (fun b => some [.bytes b]) v
      pure (encUint 3 :: vi)
  let f4 ← match w.plutusData with
    | none => pure []
    | some v => do
      let vi ← encVec plutusDataE v
      pure (encUint 4 :: vi)
  let f5 ← match w.redeemer with
    | none => pure []
    | some v => do
      let vi ← encVec redeemerE v
      pure (encUint 5 :: vi)
  let count := (if w.vkeywitness.isSome then 1 else 0) +
    (if w.nativeScript.isSome then 1 else 0) +
    (if w.bootstrapWitness.isSome then 1 else 0) +
    (if w.plutusScript.isSome then 1 else 0) +
    (if w.plutusData.isSome then 1 else 0) +
    (if w.redeemer.isSome then 1 else 0)
  pure (.mp count :: f0 ++ f1 ++ f2 ++ f3 ++ f4 ++ f5)

/-- `AlonzoAuxiliaryData`: a field-keyed optional-field map record
(metadata, native scripts, plutus script bytes). -/
structure AlonzoAuxiliaryData where
  metadata : Option (List (Metadatum × Metadatum))
  nativeScripts : Option (List NativeScript)
  plutusScripts : Option (List Nat)
deriving Repr

/-- The empty (all-absent) `AlonzoAuxiliaryData`. -/
def emptyAlonzoAuxiliaryData : AlonzoAuxiliaryData := ⟨none, none, none⟩

/-- One entry of the map-derived `AlonzoAuxiliaryData` decode. -/
def alonzoAuxiliaryDataEntry (fuel : Nat) (acc : AlonzoAuxiliaryData) :
    Dec AlonzoAuxiliaryData := do
  let k ← readU32
  if k = 0 then do
    let v ← metadataD fuel
    pure { acc with metadata := some v }
  else if k = 1 then do
    let v ← decVec (nativeScriptD fuel) fuel
    pure { acc with nativeScripts := some v }
  else if k = 2 then do
    let v ← readBytes
    pure { acc with plutusScripts := some v }
  else do
    skipOne fuel
    pure acc

/-- Definite-map path of the `AlonzoAuxiliaryData` decode. -/
def alonzoAuxiliaryDataEntriesN (fuel : Nat) :
    Nat → AlonzoAuxiliaryData → Dec AlonzoAuxiliaryData
  | 0, acc => pure acc
  | n + 1, acc => do
    let acc2 ← alonzoAuxiliaryDataEntry fuel acc
    alonzoAuxiliaryDataEntriesN fuel n acc2

/-- Indefinite-map path of the `AlonzoAuxiliaryData` decode. -/
def alonzoAuxiliaryDataEntriesIndef :
    Nat → AlonzoAuxiliaryData → Dec AlonzoAuxiliaryData
  | 0, _ => throw .noFuel
  | fuel + 1, acc => do
    match (← dpeek) with
    | .brk => do
      let _ ← dnext
      pure acc
    | _ => do
      let acc2 ← alonzoAuxiliaryDataEntry fuel acc
      alonzoAuxiliaryDataEntriesIndef fuel acc2

/-- Map-derived decode of `AlonzoAuxiliaryData`. -/
def alonzoAuxiliaryDataD (fuel : Nat) : Dec AlonzoAuxiliaryData := do
  match (← readMap) with
  | some n => alonzoAuxiliaryDataEntriesN fuel n emptyAlonzoAuxiliaryData
  | none => alonzoAuxiliaryDataEntriesIndef fuel emptyAlonzoAuxiliaryData

/-- Map-derived encode of `AlonzoAuxiliaryData`. -/
def alonzoAuxiliaryDataE (a : AlonzoAuxiliaryData) : Option (List CItem) := do
  let f0 ← match a.metadata with
    | none => pure []
    | some v => do
      let vi ← metadataE v
      pure (encUint 0 :: vi)
  let f1 ← match a.nativeScripts with
    | none => pure []
    | some v => do
      let vi ← encVec nativeScriptE v
      pure (encUint 1 :: vi)
  let f2 ← match a.plutusScripts with
    | none => pure []
    | some v => pure [encUint 2, .bytes v]
  let count := (if a.metadata.isSome then 1 else 0) +
    (if a.nativeScripts.isSome then 1 else 0) +
    (if a.plutusScripts.isSome then 1 else 0)
  pure (.mp count :: f0 ++ f1 ++ f2)

/-- `AuxiliaryData`: era-polymorphic auxiliary data, selected by the
primitive wire type. -/
inductive AuxiliaryData where
  | shelley (m : List (Metadatum × Metadatum))
  | shelleyMa (transactionMetadata : List (Metadatum × Metadatum))
      (auxiliaryScripts : List (SkipCbor 0))
  | alonzo (d : AlonzoAuxiliaryData)
deriving Repr

/-- `AuxiliaryData::decode`: a map is the legacy metadata-only form, an
array the legacy (metadata, scripts) pair, a tag the Alonzo record; any
other type is the named error. -/
def auxiliaryDataD (fuel : Nat) : Dec AuxiliaryData := do
  match (← datatype) with
  | .mapT => do
    let m ← metadataD fuel
    pure (.shelley m)
  | .arrayT => do
    let _ ← readArray
    let tm ← metadataD fuel
    let sc ← decVec (skipCborD 0 fuel) fuel
    pure (.shelleyMa tm sc)
  | .tagT => do
    let _ ← readTag
    let d ← alonzoAuxiliaryDataD fuel
    pure (.alonzo d)
  | _ => throw (.msg "Can't infer variant from data type for AuxiliaryData")

/-- `AuxiliaryData::encode`: the Alonzo form always wraps in the fixed
tag 259. -/
def auxiliaryDataE : AuxiliaryData → Option (List CItem)
  | .shelley m => metadataE m
  | .shelleyMa tm sc => do
    let tmi ← metadataE tm
    let sci ← encVec skipCborE sc
    pure (.arr 2 :: tmi ++ sci)
  | .alonzo d => do
    let di ← alonzoAuxiliaryDataE d
    pure (.tag 259 :: di)

/-- `TransactionBodyComponent`: one (key, value) component of the
transaction-body map. -/
inductive TransactionBodyComponent where
  | inputs (xs : List TransactionInput)
  | outputs (xs : List TransactionOutput)
  | fee (x : Nat)
  | ttl (x : Option Nat)
  | certificates (x : Option (List Certificate))
  | withdrawals (x : Option (List (List Nat × Nat)))
  | update (x : Option (SkipCbor 22))
  | auxiliaryDataHash (x : Option (List Nat))
  | validityIntervalStart (x : Option Nat)
  | mint (x : Option (List (List Nat × List (List Nat × Int))))
  | scriptDataHash (x : Option (List Nat))
  | collateral (x : Option (List TransactionInput))
  | requiredSigners (x : Option (List (List Nat)))
  | networkId (x : Option NetworkId)
deriving DecidableEq, Repr

/-- `TransactionBodyComponent::decode`: read the leading u32 key and
dispatch to the value shape registered for it; keys outside
0..9, 11, 13, 14, 15 are the named error. -/
def transactionBodyComponentD (fuel : Nat) : Dec TransactionBodyComponent := do
  let key ← readU32
  if key = 0 then do
    let v ← decVec transactionInputD fuel
    pure (.inputs v)
  else if key = 1 then do
    let v ← decVec (transactionOutputD fuel) fuel
    pure (.outputs v)
  else if key = 2 then do
    let v ← readU64
    pure (.fee v)
  else if key = 3 then do
    let v ← decOption readU64
    pure (.ttl v)
  else if key = 4 then do
    let v ← decOption (decVec (certificateD fuel) fuel)
    pure (.certificates v)
  else if key = 5 then do
    let v ← decOption (decBTree bytesCompare readBytes readU64 fuel)
    pure (.withdrawals v)
  else if key = 6 then do
    let v ← decOption (skipCborD 22 fuel)
    pure (.update v)
  else if key = 7 then do
    let v ← decOption readBytes
    pure (.auxiliaryDataHash v)
  else if key = 8 then do
    let v ← decOption readU64
    pure (.validityIntervalStart v)
  else if key = 9 then do
    let v ← decOption (multiassetI64D fuel)
    pure (.mint v)
  else if key = 11 then do
    let v ← decOption readBytes
    pure (.scriptDataHash v)
  else if key = 13 then do
    let v ← decOption (decVec transactionInputD fuel)
    pure (.collateral v)
  else if key = 14 then do
    let v ← decOption (decVec readBytes fuel)
    pure (.requiredSigners v)
  else if key = 15 then do
    let v ← decOption networkIdD
    pure (.networkId v)
  else throw (.msg "invalid map key for transaction body component")

/-- The key each `TransactionBodyComponent` variant is stored under and
re-emits on encode. -/
def componentKey : TransactionBodyComponent → Nat
  | .inputs _ => 0
  | .outputs _ => 1
  | .fee _ => 2
  | .ttl _ => 3
  | .certificates _ => 4
  | .withdrawals _ => 5
  | .update _ => 6
  | .auxiliaryDataHash _ => 7
  | .validityIntervalStart _ => 8
  | .mint _ => 9
  | .scriptDataHash _ => 11
  | .collateral _ => 13
  | .requiredSigners _ => 14
  | .networkId _ => 15

/-- `TransactionBodyComponent::encode`: each variant re-emits its own
key, then its value. -/
def transactionBodyComponentE : TransactionBodyComponent → Option (List CItem)
  | .inputs x => do
    let xi ← encVec transactionInputE x
    pure (encUint 0 :: xi)
  | .outputs x => do
    let xi ← encVec transactionOutputE x
    pure (encUint 1 :: xi)
  | .fee x => pure [encUint 2, encUint x]
  | .ttl x => do
    let xi ← encOption (fun v => some [encUint v]) x
    pure (encUint 3 :: xi)
  | .certificates x => do
    let xi ← encOption (encVec certificateE) x
    pure (encUint 4 :: xi)
  | .withdrawals x => do
    let xi ← encOption (encBTree (fun b => some [.bytes b]) (fun c => some [encUint c])) x
    pure (encUint 5 :: xi)
  | .update x => do
    let xi ← encOption skipCborE x
    pure (encUint 6 :: xi)
  | .auxiliaryDataHash x => do
    let xi ← encOption (fun b => some [.bytes b]) x
    pure (encUint 7 :: xi)
  | .validityIntervalStart x => do
    let xi ← encOption (fun v => some [encUint v]) x
    pure (encUint 8 :: xi)
  | .mint x => do
    let xi ← encOption multiassetI64E x
    pure (encUint 9 :: xi)
  | .scriptDataHash x => do
    let xi ← encOption (fun b => some [.bytes b]) x
    pure (encUint 11 :: xi)
  | .collateral x => do
    let xi ← encOption (encVec transactionInputE) x
    pure (encUint 13 :: xi)
  | .requiredSigners x => do
    let xi ← encOption (encVec (fun b => some [.bytes b])) x
    pure (encUint 14 :: xi)
  | .networkId x => do
    let xi ← encOption networkIdE x
    pure (encUint 15 :: xi)

/-- `TransactionBody`: the decoded (key, value) components kept as an
ordered list, NOT collapsed into a keyed record, so the encoder can
reproduce the exact key order seen on decode. -/
structure TransactionBody where
  components : List TransactionBodyComponent
deriving DecidableEq, Repr

/-- `TransactionBody::decode`: read the map's declared pair count
(an indefinite map counts as 0 via `unwrap_or_default`) and decode that
many components, in wire order. -/
def transactionBodyD (fuel : Nat) : Dec TransactionBody := do
  let len := (← readMap).getD 0
  let components ← decListN (transactionBodyComponentD fuel) len
  pure ⟨components⟩

/-- `TransactionBody::encode`: a map sized to the stored component
count, then the components in their stored order. -/
def transactionBodyE (b : TransactionBody) : Option (List CItem) := do
  let parts ← b.components.mapM transactionBodyComponentE
  pure (.mp b.components.length :: parts.flatten)

/-- `Block`: header, transaction bodies, witness sets, sparse
auxiliary-data mapping (a `BTreeMap` keyed by transaction index), and
invalid-transaction indices. -/
structure Block where
  header : Header
  transactionBodies : List TransactionBody
  transactionWitnessSets : List TransactionWitnessSet
  auxiliaryDataSet : List (Nat × AuxiliaryData)
  invalidTransactions : List Nat
deriving Repr

/-- Derived array decode of `Block` (5 positional fields). -/
def blockD (fuel : Nat) : Dec Block := do
  let _ ← readArray
  let header ← headerD
  let bodies ← decVec (transactionBodyD fuel) fuel
  let wsets ← decVec (transactionWitnessSetD fuel) fuel
  let auxset ← decBTree compare readU32 (auxiliaryDataD fuel) fuel
  let invalid ← decVec readU32 fuel
  pure ⟨header, bodies, wsets, auxset, invalid⟩

/-- Derived array encode of `Block`. -/
def blockE (b : Block) : Option (List CItem) := do
  let hi ← headerE b.header
  let bi ← encVec transactionBodyE b.transactionBodies
  let wi ← encVec transactionWitnessSetE b.transactionWitnessSets
  let ai ← encBTree (fun k => some [encUint k]) auxiliaryDataE b.auxiliaryDataSet
  let ii ← encVec (fun k => some [encUint k]) b.invalidTransactions
  pure (.arr 5 :: hi ++ bi ++ wi ++ ai ++ ii)

/-- `BlockWrapper`: the outermost artifact — a leading era tag (u16)
and the block. -/
structure BlockWrapper where
  era : Nat
  block : Block
deriving Repr

/-- Derived array decode of `BlockWrapper`. -/
def blockWrapperD (fuel : Nat) : Dec BlockWrapper := do
  let _ ← readArray
  let era ← readU16
  let blk ← blockD fuel
  pure ⟨era, blk⟩

/-- Derived array encode of `BlockWrapper`. -/
def blockWrapperE (b : BlockWrapper) : Option (List CItem) := do
  let bi ← blockE b.block
  pure (.arr 2 :: encUint b.era :: bi)

/-- A concrete era-wrapped block: one transaction body whose single
component (key 4) holds one certificate — a `StakeDeregistration` of a
`Scripthash` credential, written with its wire discriminant 1. -/
def sampleBlockTokens : List CItem := [
  .arr 2, .uint .dir 5,
  .arr 5,
  .arr 2,
  .arr 15,
  .uint .dir 1, .uint .dir 2, .bytes [3], .bytes [4], .bytes [5],
  .arr 2, .bytes [6], .bytes [7],
  .arr 2, .bytes [8], .bytes [9],
  .uint .dir 10, .bytes [11], .bytes [12],
  .uint .dir 0, .uint .dir 0, .bytes [],
  .uint .dir 6, .uint .dir 0,
  .bytes [13],
  .arr 1,
  .mp 1, .uint .dir 4,
  .arr 1,
  .arr 2, .uint .dir 1,
  .arr 2, .uint .dir 1, .bytes [14],
  .arr 0,
  .mp 0,
  .arr 0 ]

/-- The structure `sampleBlockTokens` decodes to. -/
def sampleBlockWrapper : BlockWrapper :=
  ⟨5,
   ⟨⟨⟨1, 2, [3], [4], [5], ⟨[6], [7]⟩, ⟨[8], [9]⟩, 10, [11], [12], 0, 0, [], 6, 0⟩,
     [13]⟩,
    [⟨[.certificates (some [.stakeDeregistration (.scripthash [14])])]⟩],
    [], [], []⟩⟩

/-- What `sampleBlockWrapper` re-encodes to: identical to
`sampleBlockTokens` except that the stake credential's discriminant
comes back as 0 instead of 1. -/
def sampleBlockTokensReEncoded : List CItem := [
  .arr 2, .uint .dir 5,
  .arr 5,
  .arr 2,
  .arr 15,
  .uint .dir 1, .uint .dir 2, .bytes [3], .bytes [4], .bytes [5],
  .arr 2, .bytes [6], .bytes [7],
  .arr 2, .bytes [8], .bytes [9],
  .uint .dir 10, .bytes [11], .bytes [12],
  .uint .dir 0, .uint .dir 0, .bytes [],
  .uint .dir 6, .uint .dir 0,
  .bytes [13],
  .arr 1,
  .mp 1, .uint .dir 4,
  .arr 1,
  .arr 2, .uint .dir 1,
  .arr 2, .uint .dir 0, .bytes [14],
  .arr 0,
  .mp 0,
  .arr 0 ]

/-- Running `pure` leaves the stream untouched. -/
theorem runD_pure {α : Type} (a : α) (s : List CItem) :
    runD (pure a) s = .ok (a, s) := rfl

/-- Running a bind runs the first decoder, then the continuation on the
remaining stream. -/
theorem runD_bind {α β : Type} (d : Dec α) (g : α → Dec β) (s : List CItem) :
    runD (d >>= g) s = (runD d s).bind (fun p => runD (g p.1) p.2) := by
  cases hd : d s <;>
    simp [runD, StateT.run, Bind.bind, StateT.bind, Except.bind, hd]

/-- A successful bind decomposes into a successful head decode and a
successful continuation. -/
theorem runD_bind_ok {α β : Type} (d : Dec α) (g : α → Dec β) {s : List CItem}
    {c : β} {r2 : List CItem} (h : runD (d >>= g) s = .ok (c, r2)) :
    ∃ a s2, runD d s = .ok (a, s2) ∧ runD (g a) s2 = .ok (c, r2) := by
  cases hd : d s with
  | error e =>
    rw [runD, StateT.run] at h
    simp only [Bind.bind, StateT.bind, hd, Except.bind] at h
    exact absurd h (by simp)
  | ok p =>
    refine ⟨p.1, p.2, hd, ?_⟩
    simpa only [runD, StateT.run, Bind.bind, StateT.bind, hd, Except.bind] using h

/-- A failing head decode fails the whole bind with the same error. -/
theorem runD_bind_err {α β : Type} (d : Dec α) (g : α → Dec β) {s : List CItem}
    {e : DErr} (h : runD d s = .error e) : runD (d >>= g) s = .error e := by
  rw [runD_bind, h]
  rfl

/-- A successful `pure` returns exactly its argument. -/
theorem runD_pure_ok {α : Type} {a c : α} {s r2 : List CItem}
    (h : runD (pure a) s = .ok (c, r2)) : c = a := by
  rw [runD_pure] at h
  simp only [Except.ok.injEq, Prod.mk.injEq] at h
  exact h.1.symm

/-- `readU32` accepts any unsigned head of width class at most 32 bits
and returns the value. -/
theorem runD_readU32_uint (w : UW) (k : Nat) (rest : List CItem)
    (hw : w.bits ≤ 32) : runD readU32 (.uint w k :: rest) = .ok (k, rest) := by
  simp [readU32, readUIntW, dnext, runD, StateT.run, Bind.bind, StateT.bind,
    Except.bind, hw]
  rfl

/-- `readU16` accepts any unsigned head of width class at most 16 bits
and returns the value. -/
theorem runD_readU16_uint (w : UW) (k : Nat) (rest : List CItem)
    (hw : w.bits ≤ 16) : runD readU16 (.uint w k :: rest) = .ok (k, rest) := by
  simp [readU16, readUIntW, dnext, runD, StateT.run, Bind.bind, StateT.bind,
    Except.bind, hw]
  rfl

/-- `decListN` returns exactly as many elements as requested. -/
theorem decListN_length {α : Type} (d : Dec α) :
    ∀ (n : Nat) (s : List CItem) (xs : List α) (r : List CItem),
      runD (decListN d n) s = .ok (xs, r) → xs.length = n := by
  intro n
  induction n with
  | zero =>
    intro s xs r h
    rw [decListN] at h
    rw [runD_pure_ok h]
    rfl
  | succ m ih =>
    intro s xs r h
    rw [decListN] at h
    obtain ⟨a, s2, _, h⟩ := runD_bind_ok _ _ h
    obtain ⟨as_, s3, has, h⟩ := runD_bind_ok _ _ h
    rw [runD_pure_ok h]
    simp [ih s2 as_ s3 has]

/-- A transaction-body component key outside the declared set is
rejected with the named decode error. -/
theorem tbcD_unknown_key (fuel : Nat) (w : UW) (k : Nat)
    (rest : List CItem) (hw : w.bits ≤ 32)
    (hk : ¬ (k = 0 ∨ k = 1 ∨ k = 2 ∨ k = 3 ∨ k = 4 ∨ k = 5 ∨ k = 6 ∨ k = 7 ∨
      k = 8 ∨ k = 9 ∨ k = 11 ∨ k = 13 ∨ k = 14 ∨ k = 15)) :
    runD (transactionBodyComponentD fuel) (.uint w k :: rest) =
      .error (.msg "invalid map key for transaction body component") := by
  push_neg at hk
  obtain ⟨h0, h1, h2, h3, h4, h5, h6, h7, h8, h9, h11, h13, h14, h15⟩ := hk
  simp only [transactionBodyComponentD]
  rw [runD_bind, runD_readU32_uint w k rest hw]
  simp only [Except.bind]
  simp only [if_neg h0, if_neg h1, if_neg h2, if_neg h3, if_neg h4,
    if_neg h5, if_neg h6, if_neg h7, if_neg h8, if_neg h9, if_neg h11,
    if_neg h13, if_neg h14, if_neg h15]
  rfl

/-- Claim C2 — FALSIFIED BY THE CODE (code bug): `StakeCredential::encode`
is supposed to write discriminant 1 for the script-hash variant so that
decode(encode(c)) = c, but its `Scripthash` arm writes `e.encode(0)`:
encoding `Scripthash [1]` emits discriminant 0, and decoding that output
yields `AddrKeyhash [1]`, not the original credential. -/
theorem stakeCredential_scripthash_discriminant_bug :
    stakeCredentialE (.scripthash [1]) = some [.arr 2, .uint .dir 0, .bytes [1]] ∧
    runD stakeCredentialD [.arr 2, .uint .dir 0, .bytes [1]] =
      .ok (.addrKeyhash [1], []) ∧
    runD stakeCredentialD [.arr 2, .uint .dir 1, .bytes [1]] =
      .ok (.scripthash [1], []) :=
  ⟨rfl, rfl, rfl⟩

/-- Claim C5 — FALSIFIED BY THE CODE (code bug): `NativeScript::encode`
hoists `e.array(2)` above the variant match, so the two-field
`ScriptNOfK` variant is also framed as a 2-element array (followed by
three items: discriminant, n, script list) instead of the claimed
3-element framing; the single-field variants get the claimed 2-element
framing. -/
theorem nativeScript_nofk_array_framing_bug :
    nativeScriptE (.scriptNOfK 1 []) =
      some [.arr 2, .uint .dir 3, .uint .dir 1, .arr 0] ∧
    nativeScriptE (.scriptPubkey [7]) =
      some [.arr 2, .uint .dir 0, .bytes [7]] ∧
    nativeScriptE (.invalidBefore 9) =
      some [.arr 2, .uint .dir 4, .uint .dir 9] :=
  ⟨rfl, rfl, rfl⟩

/-- Claim C3, counterexample: an input whose next primitive is an 8-bit
unsigned integer (e.g. the single byte 0x05) does NOT decode as a coin
amount — `Value::decode` matches only the 32- and 64-bit unsigned
datatypes and rejects everything else. -/
theorem value_decode_u8_fails :
    runD (valueD 1) [.uint .dir 5] =
      .error (.msg "unknown cbor data type for Alonzo Value enum") := rfl

/-- Claim C3, amended: `Value` decode yields the plain coin variant
(`Value::Coin`) exactly when the next primitive reports as the 32-bit
or 64-bit unsigned integer type: such inputs decode to `Coin` with the
read value; inputs whose next primitive is an 8- or 16-bit unsigned
integer type, or any signed (negative) integer type, fail with the
decode error "unknown cbor data type for Alonzo Value enum"; and
conversely every successful `Coin` decode consumed a head reporting as
the 32- or 64-bit unsigned type. -/
theorem value_decode_coin_iff_u32_u64 :
    (∀ (fuel : Nat) (w : UW) (v : Nat) (rest : List CItem),
       (w = .w32 ∨ w = .w64) →
       runD (valueD fuel) (.uint w v :: rest) = .ok (.coin v, rest)) ∧
    (∀ (fuel : Nat) (w : UW) (v : Nat) (rest : List CItem),
       (w = .dir ∨ w = .w8 ∨ w = .w16) →
       runD (valueD fuel) (.uint w v :: rest) =
         .error (.msg "unknown cbor data type for Alonzo Value enum")) ∧
    (∀ (fuel : Nat) (w : UW) (n : Nat) (rest : List CItem),
       runD (valueD fuel) (.nint w n :: rest) =
         .error (.msg "unknown cbor data type for Alonzo Value enum")) ∧
    (∀ (fuel : Nat) (i : CItem) (rest : List CItem) (c : Nat) (r2 : List CItem),
       runD (valueD fuel) (i :: rest) = .ok (.coin c, r2) →
       i.ctype = .u32T ∨ i.ctype = .u64T) := by
  refine ⟨?_, ?_, ?_, ?_⟩
  · intro fuel w v rest h
    rcases h with rfl | rfl <;> rfl
  · intro fuel w v rest h
    rcases h with rfl | rfl | rfl <;> rfl
  · intro fuel w n rest
    cases w <;> rfl
  · intro fuel i rest c r2 h
    cases i with
    | uint w v =>
      cases w
      case w32 => exact Or.inl rfl
      case w64 => exact Or.inr rfl
      case dir =>
        rw [show runD (valueD fuel) (CItem.uint UW.dir v :: rest) =
          .error (.msg "unknown cbor data type for Alonzo Value enum") from rfl] at h
        simp at h
      case w8 =>
        rw [show runD (valueD fuel) (CItem.uint UW.w8 v :: rest) =
          .error (.msg "unknown cbor data type for Alonzo Value enum") from rfl] at h
        simp at h
      case w16 =>
        rw [show runD (valueD fuel) (CItem.uint UW.w16 v :: rest) =
          .error (.msg "unknown cbor data type for Alonzo Value enum") from rfl] at h
        simp at h
    | nint w n =>
      cases w
      case dir =>
        rw [show runD (valueD fuel) (CItem.nint UW.dir n :: rest) =
          .error (.msg "unknown cbor data type for Alonzo Value enum") from rfl] at h
        simp at h
      case w8 =>
        rw [show runD (valueD fuel) (CItem.nint UW.w8 n :: rest) =
          .error (.msg "unknown cbor data type for Alonzo Value enum") from rfl] at h
        simp at h
      case w16 =>
        rw [show runD (valueD fuel) (CItem.nint UW.w16 n :: rest) =
          .error (.msg "unknown cbor data type for Alonzo Value enum") from rfl] at h
        simp at h
      case w32 =>
        rw [show runD (valueD fuel) (CItem.nint UW.w32 n :: rest) =
          .error (.msg "unknown cbor data type for Alonzo Value enum") from rfl] at h
        simp at h
      case w64 =>
        rw [show runD (valueD fuel) (CItem.nint UW.w64 n :: rest) =
          .error (.msg "unknown cbor data type for Alonzo Value enum") from rfl] at h
        simp at h
    | arr n =>
      simp only [valueD] at h
      rw [runD_bind] at h
      rw [show runD datatype (CItem.arr n :: rest) =
        .ok (CType.arrayT, CItem.arr n :: rest) from rfl] at h
      simp only [Except.bind] at h
      obtain ⟨a1, s1, _, h⟩ := runD_bind_ok _ _ h
      obtain ⟨a2, s2, _, h⟩ := runD_bind_ok _ _ h
      obtain ⟨a3, s3, _, h⟩ := runD_bind_ok _ _ h
      have := runD_pure_ok h
      simp at this
    | arrBegin =>
      rw [show runD (valueD fuel) (CItem.arrBegin :: rest) =
        .error (.msg "unknown cbor data type for Alonzo Value enum") from rfl] at h
      simp at h
    | bytes bs =>
      rw [show runD (valueD fuel) (CItem.bytes bs :: rest) =
        .error (.msg "unknown cbor data type for Alonzo Value enum") from rfl] at h
      simp at h
    | text s =>
      rw [show runD (valueD fuel) (CItem.text s :: rest) =
        .error (.msg "unknown cbor data type for Alonzo Value enum") from rfl] at h
      simp at h
    | mp n =>
      rw [show runD (valueD fuel) (CItem.mp n :: rest) =
        .error (.msg "unknown cbor data type for Alonzo Value enum") from rfl] at h
      simp at h
    | mpBegin =>
      rw [show runD (valueD fuel) (CItem.mpBegin :: rest) =
        .error (.msg "unknown cbor data type for Alonzo Value enum") from rfl] at h
      simp at h
    | tag t =>
      rw [show runD (valueD fuel) (CItem.tag t :: rest) =
        .error (.msg "unknown cbor data type for Alonzo Value enum") from rfl] at h
      simp at h
    | simpleNull =>
      rw [show runD (valueD fuel) (CItem.simpleNull :: rest) =
        .error (.msg "unknown cbor data type for Alonzo Value enum") from rfl] at h
      simp at h
    | brk =>
      rw [show runD (valueD fuel) (CItem.brk :: rest) =
        .error (.msg "unknown cbor data type for Alonzo Value enum") from rfl] at h
      simp at h

/-- Witness for the amended claim C3: a u32-headed input decodes as a
coin, a u16-headed and a negative-headed input produce the named error,
and the converse direction applied at a concrete successful decode. -/
theorem value_decode_coin_iff_u32_u64_witness :
    runD (valueD 1) [.uint .w32 7] = .ok (.coin 7, []) ∧
    runD (valueD 1) [.uint .w16 7] =
      .error (.msg "unknown cbor data type for Alonzo Value enum") ∧
    runD (valueD 1) [.nint .dir 3] =
      .error (.msg "unknown cbor data type for Alonzo Value enum") ∧
    ((CItem.uint .w64 9).ctype = .u32T ∨ (CItem.uint .w64 9).ctype = .u64T) :=
  ⟨value_decode_coin_iff_u32_u64.1 1 .w32 7 [] (Or.inl rfl),
   value_decode_coin_iff_u32_u64.2.1 1 .w16 7 [] (Or.inr (Or.inr rfl)),
   value_decode_coin_iff_u32_u64.2.2.1 1 .dir 3 [],
   value_decode_coin_iff_u32_u64.2.2.2 1 (.uint .w64 9) [] 9 [] rfl⟩

/-- Claim C8: `IndefVec::encode` writes the indefinite begin/end framing
exactly when the sequence is EMPTY, and a zero-length definite array
when it is NON-EMPTY; decode, by contrast, accepts whichever framing is
present and reconstructs the same element list from both. -/
theorem indefVec_encode_asymmetry {α : Type} (encA : α → Option (List CItem))
    (xs : List α) (hne : xs ≠ []) :
    indefVecE encA ⟨([] : List α)⟩ = some [.arrBegin, .brk] ∧
    indefVecE encA ⟨xs⟩ = some [.arr 0] ∧
    runD (indefVecD readU64 5) [.arr 2, .uint .dir 1, .uint .dir 2] =
      .ok (⟨[1, 2]⟩, []) ∧
    runD (indefVecD readU64 5) [.arrBegin, .uint .dir 1, .uint .dir 2, .brk] =
      .ok (⟨[1, 2]⟩, []) := by
  refine ⟨rfl, ?_, rfl, rfl⟩
  cases xs with
  | nil => exact absurd rfl hne
  | cons y ys => rfl

/-- Witness for claim C8 at a concrete non-empty sequence. -/
theorem indefVec_encode_asymmetry_witness :
    indefVecE (fun n : Nat => some [encUint n]) ⟨([] : List Nat)⟩ =
      some [.arrBegin, .brk] ∧
    indefVecE (fun n : Nat => some [encUint n]) ⟨[5]⟩ = some [.arr 0] ∧
    runD (indefVecD readU64 5) [.arr 2, .uint .dir 1, .uint .dir 2] =
      .ok (⟨[1, 2]⟩, []) ∧
    runD (indefVecD readU64 5) [.arrBegin, .uint .dir 1, .uint .dir 2, .brk] =
      .ok (⟨[1, 2]⟩, []) :=
  indefVec_encode_asymmetry (fun n : Nat => some [encUint n]) [5] (by simp)

/-- Claim C9: `RationalNumber::decode` consumes the leading semantic tag
without checking its value — any input that decodes under the canonical
tag 30 decodes identically under EVERY tag value — while encode always
re-emits the fixed tag 30, so decode-then-encode can change the tag
present in the original bytes. -/
theorem rationalNumber_decode_ignores_tag (t : Nat) (s : List CItem)
    (num : Int) (den : Nat) (r2 : List CItem)
    (h : runD rationalNumberD (.tag 30 :: s) = .ok (⟨num, den⟩, r2)) :
    runD rationalNumberD (.tag t :: s) = .ok (⟨num, den⟩, r2) ∧
    rationalNumberE ⟨num, den⟩ =
      some [.tag 30, .arr 2, encInt num, encUint den] := by
  refine ⟨?_, rfl⟩
  have ht : runD rationalNumberD (.tag t :: s) =
      runD rationalNumberD (.tag 30 :: s) := rfl
  rw [ht, h]

/-- Witness for claim C9: tag 7 decodes like tag 30, and re-encoding
writes tag 30 back. -/
theorem rationalNumber_decode_ignores_tag_witness :
    runD rationalNumberD [.tag 7, .arr 2, .uint .dir 1, .uint .dir 2] =
      .ok (⟨1, 2⟩, []) ∧
    rationalNumberE ⟨1, 2⟩ = some [.tag 30, .arr 2, encInt 1, encUint 2] :=
  rationalNumber_decode_ignores_tag 7 [.arr 2, .uint .dir 1, .uint .dir 2] 1 2 [] rfl

/-- Claim C10: `Metadatum::decode` converts a 64-bit unsigned integer to
the signed `Int` variant with a wrapping `as i64` cast — a u64 value
above `i64::MAX` still decodes successfully, yielding the
two's-complement-wrapped (negative) value rather than an error or the
unsigned magnitude. -/
theorem metadatum_u64_wrapping_cast (fuel v : Nat) (rest : List CItem)
    (h1 : 2 ^ 63 ≤ v) (h2 : v < 2 ^ 64) :
    runD (metadatumD (fuel + 1)) (.uint .w64 v :: rest) =
      .ok (.int ((v : Int) - 2 ^ 64), rest) ∧ ((v : Int) - 2 ^ 64) < 0 := by
  constructor
  · have hnot : ¬ v < 2 ^ 63 := by omega
    simp only [metadatumD]
    rw [runD_bind]
    have hdt : runD datatype (.uint .w64 v :: rest) =
        .ok (.u64T, .uint .w64 v :: rest) := rfl
    rw [hdt]
    simp only [Except.bind]
    rw [runD_bind]
    have hu : runD readU64 (.uint .w64 v :: rest) = .ok (v, rest) := by
      simp [readU64, readUIntW, dnext, runD, StateT.run, Bind.bind, StateT.bind,
        Except.bind]
      rfl
    rw [hu]
    simp only [Except.bind]
    rw [runD_pure]
    simp [u64AsI64, hnot]
    omega
  · omega

/-- Witness for claim C10 at `v = 2^63 = i64::MAX + 1`. -/
theorem metadatum_u64_wrapping_cast_witness :
    runD (metadatumD 1) [.uint .w64 (2 ^ 63)] =
      .ok (.int (((2 ^ 63 : Nat) : Int) - 2 ^ 64), []) ∧
    (((2 ^ 63 : Nat) : Int) - 2 ^ 64) < 0 :=
  metadatum_u64_wrapping_cast 0 (2 ^ 63) [] (le_refl _) (by norm_num)

/-- Claim C6: a transaction-body component whose leading key integer is
not one of the declared field keys (0–9, 11, 13, 14, 15) fails with the
decode error "invalid map key for transaction body component" — both at
the component level and for a body map carrying such a pair — and never
skips or silently defaults. -/
theorem transactionBody_unknown_key_rejected (fuel : Nat) (w : UW) (k : Nat)
    (rest : List CItem) (hw : w.bits ≤ 32)
    (hk : ¬ (k = 0 ∨ k = 1 ∨ k = 2 ∨ k = 3 ∨ k = 4 ∨ k = 5 ∨ k = 6 ∨ k = 7 ∨
      k = 8 ∨ k = 9 ∨ k = 11 ∨ k = 13 ∨ k = 14 ∨ k = 15)) :
    runD (transactionBodyComponentD fuel) (.uint w k :: rest) =
      .error (.msg "invalid map key for transaction body component") ∧
    runD (transactionBodyD fuel) (.mp 1 :: .uint w k :: rest) =
      .error (.msg "invalid map key for transaction body component") := by
  refine ⟨tbcD_unknown_key fuel w k rest hw hk, ?_⟩
  simp only [transactionBodyD]
  rw [runD_bind]
  have hm : runD readMap (.mp 1 :: .uint w k :: rest) =
      .ok (some 1, .uint w k :: rest) := rfl
  rw [hm]
  simp only [Except.bind, Option.getD]
  rw [runD_bind_err]
  rw [decListN]
  exact runD_bind_err _ _ (tbcD_unknown_key fuel w k rest hw hk)

/-- Witness for claim C6 at the injected key 16. -/
theorem transactionBody_unknown_key_rejected_witness :
    runD (transactionBodyComponentD 1) [.uint .dir 16, .uint .dir 0] =
      .error (.msg "invalid map key for transaction body component") ∧
    runD (transactionBodyD 1) [.mp 1, .uint .dir 16, .uint .dir 0] =
      .error (.msg "invalid map key for transaction body component") :=
  transactionBody_unknown_key_rejected 1 .dir 16 [.uint .dir 0] (by decide)
    (by decide)

/-- Claim C4: decoding a transaction-body map stores its components as
an ordered list in wire order — each decoded component's key equals the
wire key it was read under, and the list has exactly the map's declared
pair count — and encoding emits a map sized to the stored component
count with the components in stored order, each re-emitting its own key
first; hence a body decoded with fields in a non-canonical order (the
concrete instance has fee before inputs) re-encodes to the identical
stream. -/
theorem transactionBody_order_preservation :
    (∀ (fuel : Nat) (w : UW) (k : Nat) (rest : List CItem)
       (c : TransactionBodyComponent) (r2 : List CItem),
       runD (transactionBodyComponentD fuel) (.uint w k :: rest) = .ok (c, r2) →
       componentKey c = k) ∧
    (∀ (fuel n : Nat) (s : List CItem) (b : TransactionBody) (r : List CItem),
       runD (transactionBodyD fuel) (.mp n :: s) = .ok (b, r) →
       b.components.length = n) ∧
    (∀ (b : TransactionBody) (out : List CItem), transactionBodyE b = some out →
       ∃ parts, b.components.mapM transactionBodyComponentE = some parts ∧
         out = .mp b.components.length :: parts.flatten) ∧
    (∀ (c : TransactionBodyComponent) (l : List CItem),
       transactionBodyComponentE c = some l →
       l.head? = some (encUint (componentKey c))) ∧
    (runD (transactionBodyD 1)
       [.mp 2, .uint .dir 2, .uint .dir 5, .uint .dir 0, .arr 0] =
       .ok (⟨[.fee 5, .inputs []]⟩, []) ∧
     transactionBodyE ⟨[.fee 5, .inputs []]⟩ =
       some [.mp 2, .uint .dir 2, .uint .dir 5, .uint .dir 0, .arr 0]) := by
  refine ⟨?_, ?_, ?_, ?_, rfl, rfl⟩
  · intro fuel w k rest c r2 h
    by_cases hw : w.bits ≤ 32
    · by_cases hk : k = 0 ∨ k = 1 ∨ k = 2 ∨ k = 3 ∨ k = 4 ∨ k = 5 ∨ k = 6 ∨
        k = 7 ∨ k = 8 ∨ k = 9 ∨ k = 11 ∨ k = 13 ∨ k = 14 ∨ k = 15
      · simp only [transactionBodyComponentD] at h
        rw [runD_bind, runD_readU32_uint w k rest hw] at h
        simp only [Except.bind] at h
        rcases hk with rfl | rfl | rfl | rfl | rfl | rfl | rfl | rfl | rfl |
          rfl | rfl | rfl | rfl | rfl <;>
          (simp only [reduceIte] at h
           obtain ⟨a, s2, ha, h⟩ := runD_bind_ok _ _ h
           rw [runD_pure_ok h]
           rfl)
      · rw [tbcD_unknown_key fuel w k rest hw hk] at h
        simp at h
    · have hw64 : w = .w64 := by cases w <;> simp [UW.bits] at hw ⊢
      subst hw64
      have herr : runD readU32 (.uint .w64 k :: rest) = .error .typeMismatch := rfl
      simp only [transactionBodyComponentD] at h
      rw [runD_bind, herr] at h
      simp only [Except.bind] at h
      exact absurd h (by simp)
  · intro fuel n s b r h
    simp only [transactionBodyD] at h
    rw [runD_bind] at h
    have hm : runD readMap (.mp n :: s) = .ok (some n, s) := rfl
    rw [hm] at h
    simp only [Except.bind, Option.getD] at h
    obtain ⟨cs, s2, hcs, h⟩ := runD_bind_ok _ _ h
    have hlen := decListN_length _ _ _ _ _ hcs
    rw [runD_pure_ok h]
    exact hlen
  · intro b out h
    simp only [transactionBodyE, Bind.bind] at h
    obtain ⟨parts, hp, h2⟩ := Option.bind_eq_some.mp h
    exact ⟨parts, hp, (Option.some.inj h2).symm⟩
  · intro c l h
    cases c <;>
      first
      | (simp only [transactionBodyComponentE] at h
         rw [← Option.some.inj h]
         rfl)
      | (simp only [transactionBodyComponentE, Bind.bind] at h
         obtain ⟨xi, hx, h2⟩ := Option.bind_eq_some.mp h
         rw [← Option.some.inj h2]
         rfl)

/-- Witness for claim C4: the decoded key of a concrete component is
the wire key it was stored under. -/
theorem transactionBody_order_preservation_witness :
    componentKey (.fee 5) = 2 :=
  transactionBody_order_preservation.1 1 .dir 2 [.uint .dir 5] (.fee 5) [] rfl

/-- Claim C7: for `Certificate` and `Relay`, a successful decode of a
discriminant always yields the variant carrying that discriminant
(0..6 for certificates, 0..2 for relays, each with exactly its fields,
witnessed by concrete decodes of every declared discriminant), and any
undeclared discriminant yields the named decode error for the type —
the decoders are total Lean functions, so no panic is possible. -/
theorem certificate_relay_discriminant_totality :
    (∀ (fuel m : Nat) (w : UW) (v : Nat) (rest : List CItem),
       w.bits ≤ 16 → 7 ≤ v →
       runD (certificateD fuel) (.arr m :: .uint w v :: rest) =
         .error (.msg "unknown variant id for certificate")) ∧
    (∀ (fuel m : Nat) (w : UW) (v : Nat) (rest : List CItem) (c : Certificate)
       (r2 : List CItem),
       runD (certificateD fuel) (.arr m :: .uint w v :: rest) = .ok (c, r2) →
       certificateTag c = v) ∧
    (∀ d : Nat, d ≤ 6 → ∃ (s : List CItem) (c : Certificate) (r2 : List CItem),
       runD (certificateD 1) s = .ok (c, r2) ∧ certificateTag c = d) ∧
    (∀ (m : Nat) (w : UW) (v : Nat) (rest : List CItem),
       w.bits ≤ 16 → 3 ≤ v →
       runD relayD (.arr m :: .uint w v :: rest) =
         .error (.msg "invalid variant id for Relay")) ∧
    (∀ (m : Nat) (w : UW) (v : Nat) (rest : List CItem) (c : Relay)
       (r2 : List CItem),
       runD relayD (.arr m :: .uint w v :: rest) = .ok (c, r2) →
       relayTag c = v) ∧
    (∀ d : Nat, d ≤ 2 → ∃ (s : List CItem) (c : Relay) (r2 : List CItem),
       runD relayD s = .ok (c, r2) ∧ relayTag c = d) := by
  refine ⟨?_, ?_, ?_, ?_, ?_, ?_⟩
  · intro fuel m w v rest hw hv
    simp only [certificateD]
    rw [runD_bind]
    have hA : runD readArray (.arr m :: .uint w v :: rest) =
        .ok (some m, .uint w v :: rest) := rfl
    rw [hA]
    simp only [Except.bind]
    rw [runD_bind, runD_readU16_uint w v rest hw]
    simp only [Except.bind]
    rw [if_neg (by omega), if_neg (by omega), if_neg (by omega),
      if_neg (by omega), if_neg (by omega), if_neg (by omega),
      if_neg (by omega)]
    rfl
  · intro fuel m w v rest c r2 h
    simp only [certificateD] at h
    rw [runD_bind] at h
    have hA : runD readArray (.arr m :: .uint w v :: rest) =
        .ok (some m, .uint w v :: rest) := rfl
    rw [hA] at h
    simp only [Except.bind] at h
    by_cases hw : w.bits ≤ 16
    · rw [runD_bind, runD_readU16_uint w v rest hw] at h
      simp only [Except.bind] at h
      by_cases hk : v = 0 ∨ v = 1 ∨ v = 2 ∨ v = 3 ∨ v = 4 ∨ v = 5 ∨ v = 6
      · rcases hk with rfl | rfl | rfl | rfl | rfl | rfl | rfl <;>
          (simp only [reduceIte] at h
           repeat obtain ⟨a, s2, ha, h⟩ := runD_bind_ok _ _ h
           rw [runD_pure_ok h]
           rfl)
      · push_neg at hk
        obtain ⟨h0, h1, h2, h3, h4, h5, h6⟩ := hk
        rw [if_neg h0, if_neg h1, if_neg h2, if_neg h3, if_neg h4, if_neg h5,
          if_neg h6] at h
        exact absurd h (by simp [runD, StateT.run, throw, throwThe,
          MonadExceptOf.throw, StateT.lift])
    · have hw' : w = .w32 ∨ w = .w64 := by
        cases w <;> simp [UW.bits] at hw ⊢
      have herr : runD readU16 (.uint w v :: rest) = .error .typeMismatch := by
        rcases hw' with rfl | rfl <;> rfl
      rw [runD_bind, herr] at h
      simp only [Except.bind] at h
      exact absurd h (by simp)
  · intro d hd
    interval_cases d
    · exact ⟨[.arr 2, .uint .dir 0, .arr 2, .uint .dir 0, .bytes []],
        .stakeRegistration (.addrKeyhash []), [], rfl, rfl⟩
    · exact ⟨[.arr 2, .uint .dir 1, .arr 2, .uint .dir 0, .bytes []],
        .stakeDeregistration (.addrKeyhash []), [], rfl, rfl⟩
    · exact ⟨[.arr 3, .uint .dir 2, .arr 2, .uint .dir 0, .bytes [], .bytes []],
        .stakeDelegation (.addrKeyhash []) [], [], rfl, rfl⟩
    · exact ⟨[.arr 10, .uint .dir 3, .bytes [], .bytes [], .uint .dir 0,
        .uint .dir 0, .tag 30, .arr 2, .uint .dir 0, .uint .dir 1, .bytes [],
        .arr 0, .arr 0, .simpleNull],
        .poolRegistration [] [] 0 0 ⟨0, 1⟩ [] [] [] none, [], rfl, rfl⟩
    · exact ⟨[.arr 3, .uint .dir 4, .bytes [], .uint .dir 0],
        .poolRetirement [] 0, [], rfl, rfl⟩
    · exact ⟨[.arr 4, .uint .dir 5, .uint .dir 0, .uint .dir 0, .bytes []],
        .genesisKeyDelegation {} {} [], [], rfl, rfl⟩
    · exact ⟨[.arr 3, .uint .dir 6, .arr 2, .uint .dir 0, .uint .dir 7],
        .moveInstantaneousRewardsCert ⟨.reserves, .otherAccountingPot 7⟩,
        [], rfl, rfl⟩
  · intro m w v rest hw hv
    simp only [relayD]
    rw [runD_bind]
    have hA : runD readArray (.arr m :: .uint w v :: rest) =
        .ok (some m, .uint w v :: rest) := rfl
    rw [hA]
    simp only [Except.bind]
    rw [runD_bind, runD_readU16_uint w v rest hw]
    simp only [Except.bind]
    rw [if_neg (by omega), if_neg (by omega), if_neg (by omega)]
    rfl
  · intro m w v rest c r2 h
    simp only [relayD] at h
    rw [runD_bind] at h
    have hA : runD readArray (.arr m :: .uint w v :: rest) =
        .ok (some m, .uint w v :: rest) := rfl
    rw [hA] at h
    simp only [Except.bind] at h
    by_cases hw : w.bits ≤ 16
    · rw [runD_bind, runD_readU16_uint w v rest hw] at h
      simp only [Except.bind] at h
      by_cases hk : v = 0 ∨ v = 1 ∨ v = 2
      · rcases hk with rfl | rfl | rfl <;>
          (simp only [reduceIte] at h
           repeat obtain ⟨a, s2, ha, h⟩ := runD_bind_ok _ _ h
           rw [runD_pure_ok h]
           rfl)
      · push_neg at hk
        obtain ⟨h0, h1, h2⟩ := hk
        rw [if_neg h0, if_neg h1, if_neg h2] at h
        exact absurd h (by simp [runD, StateT.run, throw, throwThe,
          MonadExceptOf.throw, StateT.lift])
    · have hw' : w = .w32 ∨ w = .w64 := by
        cases w <;> simp [UW.bits] at hw ⊢
      have herr : runD readU16 (.uint w v :: rest) = .error .typeMismatch := by
        rcases hw' with rfl | rfl <;> rfl
      rw [runD_bind, herr] at h
      simp only [Except.bind] at h
      exact absurd h (by simp)
  · intro d hd
    interval_cases d
    · exact ⟨[.arr 4, .uint .dir 0, .simpleNull, .simpleNull, .simpleNull],
        .singleHostAddr none none none, [], rfl, rfl⟩
    · exact ⟨[.arr 3, .uint .dir 1, .simpleNull, .text ""],
        .singleHostName none "", [], rfl, rfl⟩
    · exact ⟨[.arr 2, .uint .dir 2, .text ""], .multiHostName "", [], rfl, rfl⟩

/-- Witness for claim C7: the undeclared discriminants 7 (certificate)
and 3 (relay) produce the named errors. -/
theorem certificate_relay_discriminant_totality_witness :
    runD (certificateD 1) [.arr 2, .uint .dir 7] =
      .error (.msg "unknown variant id for certificate") ∧
    runD relayD [.arr 2, .uint .dir 3] =
      .error (.msg "invalid variant id for Relay") :=
  ⟨certificate_relay_discriminant_totality.1 1 2 .dir 7 [] (by decide) (by decide),
   certificate_relay_discriminant_totality.2.2.2.1 2 .dir 3 [] (by decide)
     (by decide)⟩

/-- Claim C1 — FALSIFIED BY THE CODE (code bug): round-trip fidelity
fails on a valid era-wrapped block that uses no indefinite arrays at
all.  `sampleBlockTokens` (a block whose single transaction body holds
one stake-deregistration certificate for a script-hash credential,
discriminant 1 on the wire) decodes successfully, but re-encoding the
decoded block reproduces every item EXCEPT the credential discriminant,
which comes back as 0 (`StakeCredential::encode`'s `Scripthash` arm
writes 0) — so encode(decode(B)) ≠ B, violating the property the
repository's own round-trip test asserts. -/
theorem blockWrapper_roundtrip_broken :
    runD (blockWrapperD 100) sampleBlockTokens = .ok (sampleBlockWrapper, []) ∧
    blockWrapperE sampleBlockWrapper = some sampleBlockTokensReEncoded ∧
    sampleBlockTokensReEncoded ≠ sampleBlockTokens :=
  ⟨rfl, rfl, by decide⟩
